import Mathlib

/-!
Verification of the twemproxy exporter's stats-reconciliation core.

This file shallowly embeds the Go sources (`exporter_stats.go`,
`exporter.go`, `exporter_config.go`) in Lean 4 and proves or refutes the
frozen specification claims about them.

Modelling conventions:
* A raw payload after `json.Unmarshal` into `map[string]interface{}` is a
  `JsonValue.obj`, an association list of string keys to generic values.
  Numbers carry `Rat` (Go `float64` values; the program only stores them
  and compares `server_connections < 1`, so exact rationals are a faithful
  carrier for every claim here).
* Go maps are association lists with Go-map assignment semantics
  (`mapInsert` replaces the existing binding or appends a fresh one) and
  lookup `lookupA`/`jLookup`.
* Go's unchecked type assertion `x.(T)` is `assertString`/`assertNum`/
  `assertObj` in the `Except Unit` monad: `Except.error ()` models the
  run-time panic that aborts the whole process (there is no `recover`
  anywhere in the program), as opposed to an error value that the
  function returns to its caller.
* `parseStats` mirrors `parseStats` of `exporter_stats.go` line by line;
  `monitorRun` mirrors `Monitor.Run` of `exporter.go` with the two I/O
  steps (dial, read+unmarshal) abstracted into explicit outcomes.
-/

namespace Twemproxy

/-- Generic JSON value as produced by `json.Unmarshal` into `interface{}`. -/
inductive JsonValue where
  | str (s : String)
  | num (q : Rat)
  | jbool (b : Bool)
  | jnull
  | arr (elems : List JsonValue)
  | obj (fields : List (String × JsonValue))

/-- A decoded JSON object: what Go sees in a `map[string]interface{}`. -/
abbrev Jobj := List (String × JsonValue)

/-- Go map read `m[k]` (first binding wins; a Go map has distinct keys). -/
def lookupA {α : Type} : List (String × α) → String → Option α
  | [], _ => none
  | (k1, v) :: rest, k => if k1 = k then some v else lookupA rest k

/-- `jLookup m k` is `m[k]` on a decoded JSON object. -/
def jLookup (m : Jobj) (k : String) : Option JsonValue :=
  lookupA m k

/-- Go map assignment `m[k] = v`: replace the binding if present, else append. -/
def mapInsert {α : Type} : List (String × α) → String → α → List (String × α)
  | [], k, v => [(k, v)]
  | (k1, v1) :: rest, k, v =>
    if k1 = k then (k, v) :: rest else (k1, v1) :: mapInsert rest k v

/-- `Server` of `exporter_config.go`: one declared backend. -/
structure Server where
  IP : String
  Alias : String
deriving DecidableEq

/-- `Config` of `exporter_config.go`: one declared service of the topology. -/
structure Config where
  ConfigName : String := ""
  Hash : String := ""
  HashTag : String := ""
  Distribution : String := ""
  AutoEjectHosts : Bool := false
  Timeout : Int := 0
  Protocol : String := ""
  Redis : Bool := false
  Servers : List Server := []
deriving DecidableEq

/-- `ServerStats` of `exporter_stats.go`. -/
structure ServerStats where
  Host : String := ""
  HostAlias : String := ""
  ServerEOF : Rat := 0
  ServerErr : Rat := 0
  ServerTimedout : Rat := 0
  ServerConnections : Rat := 0
  ServerEjectedAt : Rat := 0
  Requests : Rat := 0
  RequestBytes : Rat := 0
  Responses : Rat := 0
  ResponseBytes : Rat := 0
  InQueue : Rat := 0
  InQueueBytes : Rat := 0
  OutQueue : Rat := 0
  OutQueueBytes : Rat := 0
deriving DecidableEq

/-- `ServiceStats` of `exporter_stats.go`. -/
structure ServiceStats where
  Name : String := ""
  ClientEOF : Rat := 0
  ClientErr : Rat := 0
  ClientConnections : Rat := 0
  ServerEjects : Rat := 0
  ForwardError : Rat := 0
  Fragments : Rat := 0
  ExpectedAvailable : Nat := 0
  NotAvailable : Nat := 0
  Servers : List (String × ServerStats) := []
deriving DecidableEq

/-- `TwemproxyStats` of `exporter_stats.go`. -/
structure TwemproxyStats where
  Service : String := ""
  Source : String := ""
  TotalConnections : Rat := 0
  CurrentConnections : Rat := 0
  ExpectedAvailable : Nat := 0
  NotAvailable : Nat := 0
  Services : List (String × ServiceStats) := []
deriving DecidableEq

/-- Go type assertion `v.(string)`; `Except.error ()` is the run-time panic. -/
def assertString : Option JsonValue → Except Unit String
  | some (JsonValue.str s) => Except.ok s
  | _ => Except.error ()

/-- Go type assertion `v.(float64)`; `Except.error ()` is the run-time panic. -/
def assertNum : Option JsonValue → Except Unit Rat
  | some (JsonValue.num q) => Except.ok q
  | _ => Except.error ()

/-- Go type assertion `v.(map[string]interface{})`. -/
def assertObj : Option JsonValue → Except Unit Jobj
  | some (JsonValue.obj m) => Except.ok m
  | _ => Except.error ()

/-- Lines 93-98 of `exporter_stats.go`: the key used to look the backend up
in the raw service sub-document (the alias when non-empty, else the address). -/
def resolvedHost (val : Server) : String :=
  if val.Alias ≠ "" then val.Alias else val.IP

/-- Lines 99-122 of `exporter_stats.go`: handle one declared backend against
the raw service sub-document. `ok none` is the `continue` taken when the
resolved host key is absent; `ok (some _)` is the fully extracted record;
`error ()` is a panic from one of the thirteen numeric type assertions
(or from the cast of the sub-document to an object). -/
def parseServer (service : Jobj) (val : Server) : Except Unit (Option ServerStats) :=
  let host := resolvedHost val
  let hostAlias := val.IP
  match jLookup service host with
  | none => Except.ok none
  | some se => do
    let srv ← assertObj (some se)
    let serverEOF ← assertNum (jLookup srv "server_eof")
    let serverErr ← assertNum (jLookup srv "server_err")
    let serverTimedout ← assertNum (jLookup srv "server_timedout")
    let serverConnections ← assertNum (jLookup srv "server_connections")
    let serverEjectedAt ← assertNum (jLookup srv "server_ejected_at")
    let requests ← assertNum (jLookup srv "requests")
    let requestBytes ← assertNum (jLookup srv "request_bytes")
    let responses ← assertNum (jLookup srv "responses")
    let responseBytes ← assertNum (jLookup srv "response_bytes")
    let inQueue ← assertNum (jLookup srv "in_queue")
    let inQueueBytes ← assertNum (jLookup srv "in_queue_bytes")
    let outQueue ← assertNum (jLookup srv "out_queue")
    let outQueueBytes ← assertNum (jLookup srv "out_queue_bytes")
    Except.ok (some
      { Host := host
        HostAlias := hostAlias
        ServerEOF := serverEOF
        ServerErr := serverErr
        ServerTimedout := serverTimedout
        ServerConnections := serverConnections
        ServerEjectedAt := serverEjectedAt
        Requests := requests
        RequestBytes := requestBytes
        Responses := responses
        ResponseBytes := responseBytes
        InQueue := inQueue
        InQueueBytes := inQueueBytes
        OutQueue := outQueue
        OutQueueBytes := outQueueBytes })

/-- Lines 92-130 of `exporter_stats.go`: the inner `for _, val := range
config[key].Servers` loop. `ss` is the `serviceStats` being built and `tna`
the current top-level `twemp.NotAvailable`; the two counters are
incremented in lockstep exactly as in the source. -/
def processServers (service : Jobj) :
    List Server → ServiceStats → Nat → Except Unit (ServiceStats × Nat)
  | [], ss, tna => Except.ok (ss, tna)
  | val :: rest, ss, tna =>
    match parseServer service val with
    | Except.error e => Except.error e
    | Except.ok none =>
      processServers service rest
        { ss with NotAvailable := ss.NotAvailable + 1 } (tna + 1)
    | Except.ok (some serverStats) =>
      let ss1 := { ss with
        Servers := mapInsert ss.Servers (resolvedHost val) serverStats }
      if serverStats.ServerConnections < 1 then
        processServers service rest
          { ss1 with NotAvailable := ss1.NotAvailable + 1 } (tna + 1)
      else
        processServers service rest ss1 tna

/-- Lines 85-90 of `exporter_stats.go`: the six mandatory service-level
scalar extractions, in source order, each an unchecked `.(float64)`. -/
def serviceScalarsE (service : Jobj) :
    Except Unit (Rat × Rat × Rat × Rat × Rat × Rat) := do
  let clientEOF ← assertNum (jLookup service "client_eof")
  let clientErr ← assertNum (jLookup service "client_err")
  let clientConnections ← assertNum (jLookup service "client_connections")
  let serverEjects ← assertNum (jLookup service "server_ejects")
  let forwardError ← assertNum (jLookup service "forward_error")
  let fragments ← assertNum (jLookup service "fragments")
  Except.ok (clientEOF, clientErr, clientConnections, serverEjects,
    forwardError, fragments)

/-- Lines 70-132 of `exporter_stats.go`: one iteration of the outer
`for key := range config` loop, updating the accumulated `twemp`. When the
service key is absent from the payload the iteration is the `continue` at
line 78: note it fires before the `twemp.ExpectedAvailable` increment at
line 80, so an absent service contributes nothing to any counter. -/
def processService (stats : Jobj) (key : String) (c : Config)
    (twemp : TwemproxyStats) : Except Unit TwemproxyStats :=
  let serviceStats0 : ServiceStats :=
    { Name := key, ExpectedAvailable := c.Servers.length, Servers := [] }
  match jLookup stats key with
  | none => Except.ok twemp
  | some s => do
    let twemp1 := { twemp with
      ExpectedAvailable := twemp.ExpectedAvailable + c.Servers.length }
    let service ← assertObj (some s)
    let scal ← serviceScalarsE service
    let serviceStats1 := { serviceStats0 with
      ClientEOF := scal.1
      ClientErr := scal.2.1
      ClientConnections := scal.2.2.1
      ServerEjects := scal.2.2.2.1
      ForwardError := scal.2.2.2.2.1
      Fragments := scal.2.2.2.2.2 }
    let r ← processServers service c.Servers serviceStats1 twemp1.NotAvailable
    Except.ok { twemp1 with
      NotAvailable := r.2
      Services := mapInsert twemp1.Services key r.1 }

/-- The whole `for key := range config` loop of `exporter_stats.go`. The Go
map is modelled as an association list with distinct keys; iteration order
is immaterial to every property proved below. -/
def processServices (stats : Jobj) :
    List (String × Config) → TwemproxyStats → Except Unit TwemproxyStats
  | [], twemp => Except.ok twemp
  | (key, c) :: rest, twemp =>
    match processService stats key c twemp with
    | Except.error e => Except.error e
    | Except.ok twemp1 => processServices stats rest twemp1

/-- Observable outcome of `parseStats`:
* `unmarshalFailure` — `json.Unmarshal` failed and the function returned
  `(TwemproxyStats{}, err)` (lines 54-59), a normal error return;
* `castFailure` — one of the unchecked type assertions failed at run time,
  i.e. the process panics and `parseStats` never returns;
* `parsed st` — the function returned `(st, nil)`. -/
inductive ParseOutcome where
  | unmarshalFailure
  | castFailure
  | parsed (st : TwemproxyStats)
deriving DecidableEq

/-- Lines 62-68 of `exporter_stats.go`: the four mandatory top-level scalar
extractions, in source order, each an unchecked type assertion. -/
def topScalarsE (stats : Jobj) : Except Unit (String × String × Rat × Rat) := do
  let service ← assertString (jLookup stats "service")
  let source ← assertString (jLookup stats "source")
  let totalConnections ← assertNum (jLookup stats "total_connections")
  let currentConnections ← assertNum (jLookup stats "curr_connections")
  Except.ok (service, source, totalConnections, currentConnections)

/-- `parseStats` of `exporter_stats.go` (lines 52-134). The input is the
result of `json.Unmarshal` on the raw bytes: `none` when the bytes are not
a valid JSON object, `some stats` the decoded top-level map otherwise. -/
def parseStats (statsContent : Option Jobj) (config : List (String × Config)) :
    ParseOutcome :=
  match statsContent with
  | none => ParseOutcome.unmarshalFailure
  | some stats =>
    let run : Except Unit TwemproxyStats := do
      let t ← topScalarsE stats
      let twemp : TwemproxyStats :=
        { Service := t.1
          Source := t.2.1
          TotalConnections := t.2.2.1
          CurrentConnections := t.2.2.2
          Services := [] }
      processServices stats config twemp
    match run with
    | Except.error _ => ParseOutcome.castFailure
    | Except.ok t => ParseOutcome.parsed t

/-- Observable outcome of one tick of `Monitor.Run` (`exporter.go` 184-215):
* `crashed` — the process dies: either `net.Dial` failed and the code went
  on to call `conn.Read` on the nil connection (nil-pointer dereference),
  or a type assertion inside `parseStats` panicked;
* `published st` — the tick completed and the prometheus gauges were set
  from snapshot `st`. -/
inductive RunOutcome where
  | crashed
  | published (st : TwemproxyStats)
deriving DecidableEq

/-- `Monitor.Run` of `exporter.go`. `dialOk` abstracts whether `net.Dial`
succeeded; `payload` abstracts the bytes read and unmarshalled (as in
`parseStats`). Note the source only logs a dial/read/parse error and falls
through: after a failed dial it dereferences the nil `conn`, and after a
parse error it still sets the gauges from the zero-valued snapshot. -/
def monitorRun (dialOk : Bool) (payload : Option Jobj)
    (config : List (String × Config)) : RunOutcome :=
  if dialOk = false then RunOutcome.crashed
  else
    match parseStats payload config with
    | ParseOutcome.unmarshalFailure => RunOutcome.published {}
    | ParseOutcome.castFailure => RunOutcome.crashed
    | ParseOutcome.parsed st => RunOutcome.published st

/-! ### Derived observers

The following definitions do not add behaviour: they name the quantities
that `parseStats` computes, so the theorems below can speak about one
backend's or one service's contribution in isolation. Each is proved
against the executable embedding above. -/

/-- Whether an optional JSON value is a string (the shape `.(string)` accepts). -/
def isStr : Option JsonValue → Bool
  | some (JsonValue.str _) => true
  | _ => false

/-- Whether an optional JSON value is a number (the shape `.(float64)` accepts). -/
def isNum : Option JsonValue → Bool
  | some (JsonValue.num _) => true
  | _ => false

/-- The four mandatory top-level fields all have the asserted shape. -/
def topFieldsOk (stats : Jobj) : Bool :=
  isStr (jLookup stats "service") && isStr (jLookup stats "source") &&
  isNum (jLookup stats "total_connections") && isNum (jLookup stats "curr_connections")

/-- The six mandatory service-level scalar field names (lines 85-90). -/
def svcFieldNames : List String :=
  ["client_eof", "client_err", "client_connections", "server_ejects",
   "forward_error", "fragments"]

/-- The thirteen numeric server-level field names (lines 109-121). -/
def srvFieldNames : List String :=
  ["server_eof", "server_err", "server_timedout", "server_connections",
   "server_ejected_at", "requests", "request_bytes", "responses",
   "response_bytes", "in_queue", "in_queue_bytes", "out_queue",
   "out_queue_bytes"]

/-- How much one declared backend adds to `notAvailable` (both levels):
1 when its resolved host key is absent from the service sub-document, and
1 when it is present but reports fewer than one connection. -/
def backendContrib (service : Jobj) (val : Server) : Nat :=
  match parseServer service val with
  | Except.ok none => 1
  | Except.ok (some srv) => if srv.ServerConnections < 1 then 1 else 0
  | Except.error _ => 0

/-- Total `notAvailable` contribution of a declared backend list. -/
def contribSum (service : Jobj) : List Server → Nat
  | [] => 0
  | val :: rest => backendContrib service val + contribSum service rest

/-- The `Servers` map built by the inner loop, as a fold of Go-map inserts
over the declared backends that are found in the sub-document. -/
def emittedServers (service : Jobj) :
    List Server → List (String × ServerStats) → List (String × ServerStats)
  | [], m => m
  | val :: rest, m =>
    match parseServer service val with
    | Except.ok (some srv) =>
      emittedServers service rest (mapInsert m (resolvedHost val) srv)
    | _ => emittedServers service rest m

/-- What one declared service adds to the top-level `expectedAvailable`:
its backend count when its key is present in the payload, else 0
(the `continue` at line 78 fires before the increment at line 80). -/
def serviceExpected (stats : Jobj) (key : String) (c : Config) : Nat :=
  match jLookup stats key with
  | none => 0
  | some _ => c.Servers.length

/-- What one declared service adds to the top-level `notAvailable`. -/
def serviceContrib (stats : Jobj) (key : String) (c : Config) : Nat :=
  match jLookup stats key with
  | none => 0
  | some s =>
    match assertObj (some s) with
    | Except.error _ => 0
    | Except.ok service => contribSum service c.Servers

/-- The `ServiceStats` record that the loop body builds for a declared
service, when it builds one: `none` when the key is absent from the
payload or when a type assertion panics along the way. -/
def builtService (stats : Jobj) (key : String) (c : Config) : Option ServiceStats :=
  match jLookup stats key with
  | none => none
  | some s =>
    let serviceStats0 : ServiceStats :=
      { Name := key, ExpectedAvailable := c.Servers.length, Servers := [] }
    let run : Except Unit ServiceStats := do
      let service ← assertObj (some s)
      let scal ← serviceScalarsE service
      let serviceStats1 := { serviceStats0 with
        ClientEOF := scal.1
        ClientErr := scal.2.1
        ClientConnections := scal.2.2.1
        ServerEjects := scal.2.2.2.1
        ForwardError := scal.2.2.2.2.1
        Fragments := scal.2.2.2.2.2 }
      let r ← processServers service c.Servers serviceStats1 0
      Except.ok r.1
    match run with
    | Except.error _ => none
    | Except.ok sv => some sv

/-- Effect of one outer-loop iteration on the `Services` map. -/
def svUpdate (stats : Jobj) (key : String) (c : Config)
    (m : List (String × ServiceStats)) : List (String × ServiceStats) :=
  match builtService stats key c with
  | none => m
  | some sv => mapInsert m key sv

/-- Top-level `expectedAvailable` accumulated over the whole topology. -/
def expectedTotal (stats : Jobj) : List (String × Config) → Nat
  | [] => 0
  | (key, c) :: rest => serviceExpected stats key c + expectedTotal stats rest

/-- Top-level `notAvailable` accumulated over the whole topology. -/
def contribTotal (stats : Jobj) : List (String × Config) → Nat
  | [] => 0
  | (key, c) :: rest => serviceContrib stats key c + contribTotal stats rest

/-- The `Services` map accumulated over the whole topology. -/
def svFold (stats : Jobj) :
    List (String × Config) → List (String × ServiceStats) → List (String × ServiceStats)
  | [], m => m
  | (key, c) :: rest, m => svFold stats rest (svUpdate stats key c m)

/-- Sum of `NotAvailable` over the entries of a `Services` map. -/
def naSum : List (String × ServiceStats) → Nat
  | [] => 0
  | p :: rest => p.2.NotAvailable + naSum rest

/-- Sum of `ExpectedAvailable` over the entries of a `Services` map. -/
def eaSum : List (String × ServiceStats) → Nat
  | [] => 0
  | p :: rest => p.2.ExpectedAvailable + eaSum rest

/-- Sum of declared backend counts over a whole topology. -/
def declaredSum : List (String × Config) → Nat
  | [] => 0
  | (_, c) :: rest => c.Servers.length + declaredSum rest

/-! ### Concrete fixtures used by witnesses and counterexamples -/

/-- A fully populated raw backend sub-document reporting `sc` connections. -/
def srvDoc (sc : Rat) : Jobj :=
  [("server_eof", JsonValue.num 0), ("server_err", JsonValue.num 0),
   ("server_timedout", JsonValue.num 0), ("server_connections", JsonValue.num sc),
   ("server_ejected_at", JsonValue.num 0), ("requests", JsonValue.num 0),
   ("request_bytes", JsonValue.num 0), ("responses", JsonValue.num 0),
   ("response_bytes", JsonValue.num 0), ("in_queue", JsonValue.num 0),
   ("in_queue_bytes", JsonValue.num 0), ("out_queue", JsonValue.num 0),
   ("out_queue_bytes", JsonValue.num 0)]

/-- The six mandatory scalar fields of a service block. -/
def svcScalars : Jobj :=
  [("client_eof", JsonValue.num 0), ("client_err", JsonValue.num 0),
   ("client_connections", JsonValue.num 2), ("server_ejects", JsonValue.num 0),
   ("forward_error", JsonValue.num 0), ("fragments", JsonValue.num 0)]

/-- The four mandatory top-level scalar fields. -/
def topScalars : Jobj :=
  [("service", JsonValue.str "nutcracker"), ("source", JsonValue.str "host1"),
   ("total_connections", JsonValue.num 10), ("curr_connections", JsonValue.num 3)]

/-- Extract the snapshot from a `parsed` outcome (zero value otherwise). -/
def parsedOf (o : ParseOutcome) : TwemproxyStats :=
  match o with
  | ParseOutcome.parsed st => st
  | _ => {}

/-- Topology with one service `beta` of three unaliased backends. -/
def cBeta : Config :=
  { Servers := [{ IP := "10.0.0.1", Alias := "" },
                { IP := "10.0.0.2", Alias := "" },
                { IP := "10.0.0.3", Alias := "" }] }

def cfgBeta : List (String × Config) := [("beta", cBeta)]

/-- An unaliased backend and an aliased one, as declared for `alpha`. -/
def bAddr : Server := { IP := "10.0.0.1", Alias := "" }

def bDown : Server := { IP := "10.0.0.2", Alias := "cache2" }

def bMissing : Server := { IP := "10.0.0.9", Alias := "" }

def cAlpha : Config := { Servers := [bAddr, bDown] }

def cfgAlpha : List (String × Config) := [("alpha", cAlpha)]

/-- A payload whose mandatory top-level field `service` is missing. -/
def topMissingService : Jobj :=
  [("source", JsonValue.str "host1"), ("total_connections", JsonValue.num 10),
   ("curr_connections", JsonValue.num 3)]

/-- A service block whose mandatory scalar `client_eof` is missing. -/
def svcMissingEOF : Jobj :=
  [("client_err", JsonValue.num 0), ("client_connections", JsonValue.num 2),
   ("server_ejects", JsonValue.num 0), ("forward_error", JsonValue.num 0),
   ("fragments", JsonValue.num 0)]

def pMissingSvcField : Jobj :=
  topScalars ++ [("alpha", JsonValue.obj svcMissingEOF)]

/-- A backend sub-document whose leaf field `server_eof` is missing. -/
def srvDocMissingEOF : Jobj :=
  [("server_err", JsonValue.num 0), ("server_timedout", JsonValue.num 0),
   ("server_connections", JsonValue.num 5), ("server_ejected_at", JsonValue.num 0),
   ("requests", JsonValue.num 0), ("request_bytes", JsonValue.num 0),
   ("responses", JsonValue.num 0), ("response_bytes", JsonValue.num 0),
   ("in_queue", JsonValue.num 0), ("in_queue_bytes", JsonValue.num 0),
   ("out_queue", JsonValue.num 0), ("out_queue_bytes", JsonValue.num 0)]

def svcLeafDoc : Jobj :=
  svcScalars ++ [("10.0.0.1", JsonValue.obj (srvDoc 5)),
                 ("cache2", JsonValue.obj srvDocMissingEOF)]

def pMissingLeaf : Jobj := topScalars ++ [("alpha", JsonValue.obj svcLeafDoc)]

/-- A fully populated `alpha` block: both declared backends present. -/
def svcFullDoc : Jobj :=
  svcScalars ++ [("10.0.0.1", JsonValue.obj (srvDoc 2)),
                 ("cache2", JsonValue.obj (srvDoc 5))]

def pAlias : Jobj := topScalars ++ [("alpha", JsonValue.obj svcFullDoc)]

/-- The sub-document holding only the aliased backend. -/
def svcAliasDoc : Jobj := [("cache2", JsonValue.obj (srvDoc 5))]

/-- An `alpha` block where only the aliased backend reports, with 0 connections. -/
def svcMixedDoc : Jobj := svcScalars ++ [("cache2", JsonValue.obj (srvDoc 0))]

def pMixed : Jobj := topScalars ++ [("alpha", JsonValue.obj svcMixedDoc)]

/-- Sub-document for exercising the inner loop directly. -/
def svcW : Jobj := [("cache2", JsonValue.obj (srvDoc 0))]

def ssW0 : ServiceStats := { Name := "w", ExpectedAvailable := 2 }

/-- Expected extracted records (unset fields are zero). -/
def eAddr : ServerStats :=
  { Host := "10.0.0.1", HostAlias := "10.0.0.1", ServerConnections := 2 }

def eCache2 : ServerStats :=
  { Host := "cache2", HostAlias := "10.0.0.2", ServerConnections := 5 }

def eDown : ServerStats := { Host := "cache2", HostAlias := "10.0.0.2" }

def ssW2 : ServiceStats :=
  { Name := "w", ExpectedAvailable := 2, NotAvailable := 2,
    Servers := [("cache2", eDown)] }

def svAlpha : ServiceStats :=
  { Name := "alpha", ClientConnections := 2, ExpectedAvailable := 2,
    Servers := [("10.0.0.1", eAddr), ("cache2", eCache2)] }

def stFull : TwemproxyStats :=
  { Service := "nutcracker", Source := "host1", TotalConnections := 10,
    CurrentConnections := 3, ExpectedAvailable := 2,
    Services := [("alpha", svAlpha)] }

def svMixed : ServiceStats :=
  { Name := "alpha", ClientConnections := 2, ExpectedAvailable := 2,
    NotAvailable := 2, Servers := [("cache2", eDown)] }

def stMixed : TwemproxyStats :=
  { Service := "nutcracker", Source := "host1", TotalConnections := 10,
    CurrentConnections := 3, ExpectedAvailable := 2, NotAvailable := 2,
    Services := [("alpha", svMixed)] }

/-! ### Association-list and monad lemmas -/

theorem lookupA_cons_self {α : Type} (k : String) (v : α) (m : List (String × α)) :
    lookupA ((k, v) :: m) k = some v := by
  simp [lookupA]

theorem lookupA_cons_ne {α : Type} {k1 k : String} (v : α) (m : List (String × α))
    (h : k1 ≠ k) : lookupA ((k1, v) :: m) k = lookupA m k := by
  simp [lookupA, h]

theorem lookupA_append_left_none {α : Type} {m1 : List (String × α)} {k : String}
    (h : lookupA m1 k = none) (m2 : List (String × α)) :
    lookupA (m1 ++ m2) k = lookupA m2 k := by
  induction m1 with
  | nil => rfl
  | cons p rest ih =>
    by_cases hk : p.1 = k
    · rw [← hk] at h
      simp [lookupA] at h
    · simpa [lookupA, hk] using ih (by simpa [lookupA, hk] using h)

theorem lookupA_mapInsert_self {α : Type} (m : List (String × α)) (k : String) (v : α) :
    lookupA (mapInsert m k v) k = some v := by
  induction m with
  | nil => simp [mapInsert, lookupA]
  | cons p rest ih =>
    by_cases hk : p.1 = k
    · simp [mapInsert, hk, lookupA]
    · simpa [mapInsert, hk, lookupA] using ih

theorem lookupA_mapInsert_ne {α : Type} (m : List (String × α)) {k1 k2 : String}
    (v : α) (h : k1 ≠ k2) : lookupA (mapInsert m k1 v) k2 = lookupA m k2 := by
  induction m with
  | nil => simp [mapInsert, lookupA, h]
  | cons p rest ih =>
    by_cases hk : p.1 = k1
    · simp [mapInsert, hk, lookupA, h]
    · by_cases hk2 : p.1 = k2
      · simp [mapInsert, hk, lookupA, hk2, Ne.symm h]
      · simpa [mapInsert, hk, lookupA, hk2] using ih

theorem mem_mapInsert {α : Type} {p : String × α} {m : List (String × α)}
    {k : String} {v : α} (h : p ∈ mapInsert m k v) : p = (k, v) ∨ p ∈ m := by
  induction m with
  | nil => simpa [mapInsert] using h
  | cons q rest ih =>
    by_cases hk : q.1 = k
    · simp [mapInsert, hk] at h
      rcases h with h | h
      · exact Or.inl h
      · exact Or.inr (List.mem_cons_of_mem _ h)
    · simp [mapInsert, hk] at h
      rcases h with h | h
      · exact Or.inr (by simp [h])
      · rcases ih h with h2 | h2
        · exact Or.inl h2
        · exact Or.inr (List.mem_cons_of_mem _ h2)

theorem mapInsert_of_lookupA_none {α : Type} {m : List (String × α)} {k : String}
    (h : lookupA m k = none) (v : α) : mapInsert m k v = m ++ [(k, v)] := by
  induction m with
  | nil => rfl
  | cons p rest ih =>
    by_cases hk : p.1 = k
    · rw [← hk] at h
      simp [lookupA] at h
    · simp only [lookupA, hk, if_neg] at h
      simpa [mapInsert, hk] using ih h

/-- An `Except Unit` value is a panic or a success. -/
theorem exceptCases {α : Type} (x : Except Unit α) :
    x = Except.error () ∨ ∃ a, x = Except.ok a := by
  cases x with
  | error e => exact Or.inl (by rfl)
  | ok a => exact Or.inr ⟨a, rfl⟩

theorem bindE_ok {α β : Type} {x : Except Unit α} {f : α → Except Unit β} {b : β}
    (h : (x >>= f) = Except.ok b) : ∃ a, x = Except.ok a ∧ f a = Except.ok b := by
  cases x with
  | error e => simp [Bind.bind, Except.bind] at h
  | ok a => exact ⟨a, rfl, by simpa [Bind.bind, Except.bind] using h⟩

theorem bindE_err_left {α β : Type} {x : Except Unit α} (f : α → Except Unit β)
    (h : x = Except.error ()) : (x >>= f) = Except.error () := by
  rw [h]; rfl

theorem bindE_err_right {α β : Type} {x : Except Unit α} {f : α → Except Unit β}
    {a : α} (hx : x = Except.ok a) (h : f a = Except.error ()) :
    (x >>= f) = Except.error () := by
  rw [hx]; simpa [Bind.bind, Except.bind] using h

theorem assertString_ok_isStr {v : Option JsonValue} {s : String}
    (h : assertString v = Except.ok s) : isStr v = true := by
  cases v with
  | none => simp [assertString] at h
  | some j => cases j <;> first | rfl | simp [assertString] at h

theorem assertNum_ok_isNum {v : Option JsonValue} {q : Rat}
    (h : assertNum v = Except.ok q) : isNum v = true := by
  cases v with
  | none => simp [assertNum] at h
  | some j => cases j <;> first | rfl | simp [assertNum] at h

theorem assertObj_ok {s : JsonValue} {o : Jobj}
    (h : assertObj (some s) = Except.ok o) : s = JsonValue.obj o := by
  cases s <;> simp [assertObj] at h
  rw [h]

/-! ### Inversion lemmas for `parseServer` -/

theorem parseServer_none {service : Jobj} {val : Server} :
    parseServer service val = Except.ok none ↔
      jLookup service (resolvedHost val) = none := by
  constructor
  · intro h
    cases hl : jLookup service (resolvedHost val) with
    | none => rfl
    | some se =>
      exfalso
      simp only [parseServer, hl] at h
      obtain ⟨a1, e1, h⟩ := bindE_ok h
      obtain ⟨a2, e2, h⟩ := bindE_ok h
      obtain ⟨a3, e3, h⟩ := bindE_ok h
      obtain ⟨a4, e4, h⟩ := bindE_ok h
      obtain ⟨a5, e5, h⟩ := bindE_ok h
      obtain ⟨a6, e6, h⟩ := bindE_ok h
      obtain ⟨a7, e7, h⟩ := bindE_ok h
      obtain ⟨a8, e8, h⟩ := bindE_ok h
      obtain ⟨a9, e9, h⟩ := bindE_ok h
      obtain ⟨a10, e10, h⟩ := bindE_ok h
      obtain ⟨a11, e11, h⟩ := bindE_ok h
      obtain ⟨a12, e12, h⟩ := bindE_ok h
      obtain ⟨a13, e13, h⟩ := bindE_ok h
      obtain ⟨a14, e14, h⟩ := bindE_ok h
      simp at h
  · intro h
    simp only [parseServer, h]

theorem parseServer_ok_fields {service : Jobj} {val : Server} {srv : ServerStats}
    (h : parseServer service val = Except.ok (some srv)) :
    srv.Host = resolvedHost val ∧ srv.HostAlias = val.IP ∧
    ∃ srvo, jLookup service (resolvedHost val) = some (JsonValue.obj srvo) ∧
      ∀ f ∈ srvFieldNames, isNum (jLookup srvo f) = true := by
  cases hl : jLookup service (resolvedHost val) with
  | none =>
    rw [parseServer_none.mpr hl] at h
    simp at h
  | some se =>
    simp only [parseServer, hl] at h
    obtain ⟨a1, e1, h⟩ := bindE_ok h
    obtain ⟨a2, e2, h⟩ := bindE_ok h
    obtain ⟨a3, e3, h⟩ := bindE_ok h
    obtain ⟨a4, e4, h⟩ := bindE_ok h
    obtain ⟨a5, e5, h⟩ := bindE_ok h
    obtain ⟨a6, e6, h⟩ := bindE_ok h
    obtain ⟨a7, e7, h⟩ := bindE_ok h
    obtain ⟨a8, e8, h⟩ := bindE_ok h
    obtain ⟨a9, e9, h⟩ := bindE_ok h
    obtain ⟨a10, e10, h⟩ := bindE_ok h
    obtain ⟨a11, e11, h⟩ := bindE_ok h
    obtain ⟨a12, e12, h⟩ := bindE_ok h
    obtain ⟨a13, e13, h⟩ := bindE_ok h
    obtain ⟨a14, e14, h⟩ := bindE_ok h
    simp only [Except.ok.injEq, Option.some.injEq] at h
    subst h
    have hse := assertObj_ok e1
    subst hse
    refine ⟨rfl, rfl, a1, rfl, ?_⟩
    have n2 := assertNum_ok_isNum e2
    have n3 := assertNum_ok_isNum e3
    have n4 := assertNum_ok_isNum e4
    have n5 := assertNum_ok_isNum e5
    have n6 := assertNum_ok_isNum e6
    have n7 := assertNum_ok_isNum e7
    have n8 := assertNum_ok_isNum e8
    have n9 := assertNum_ok_isNum e9
    have n10 := assertNum_ok_isNum e10
    have n11 := assertNum_ok_isNum e11
    have n12 := assertNum_ok_isNum e12
    have n13 := assertNum_ok_isNum e13
    have n14 := assertNum_ok_isNum e14
    intro f hf
    fin_cases hf <;> assumption

theorem parseServer_err_of_badfield {service : Jobj} {val : Server} {srvo : Jobj}
    {f : String} (hl : jLookup service (resolvedHost val) = some (JsonValue.obj srvo))
    (hf : f ∈ srvFieldNames) (hbad : isNum (jLookup srvo f) = false) :
    parseServer service val = Except.error () := by
  rcases exceptCases (parseServer service val) with h | ⟨o, h⟩
  · exact h
  · exfalso
    cases o with
    | none => rw [parseServer_none.mp h] at hl; cases hl
    | some srv =>
      obtain ⟨-, -, srvo2, hl2, hnum⟩ := parseServer_ok_fields h
      rw [hl] at hl2
      simp only [Option.some.injEq, JsonValue.obj.injEq] at hl2
      subst hl2
      rw [hnum f hf] at hbad
      cases hbad

/-! ### Characterization of the inner backend loop -/

theorem processServers_ok {service : Jobj} {servers : List Server}
    {ss ss2 : ServiceStats} {tna tna2 : Nat}
    (h : processServers service servers ss tna = Except.ok (ss2, tna2)) :
    ss2.Name = ss.Name ∧ ss2.ClientEOF = ss.ClientEOF ∧ ss2.ClientErr = ss.ClientErr ∧
    ss2.ClientConnections = ss.ClientConnections ∧ ss2.ServerEjects = ss.ServerEjects ∧
    ss2.ForwardError = ss.ForwardError ∧ ss2.Fragments = ss.Fragments ∧
    ss2.ExpectedAvailable = ss.ExpectedAvailable ∧
    ss2.NotAvailable = ss.NotAvailable + contribSum service servers ∧
    tna2 = tna + contribSum service servers ∧
    ss2.Servers = emittedServers service servers ss.Servers := by
  induction servers generalizing ss tna with
  | nil =>
    simp only [processServers, Except.ok.injEq, Prod.mk.injEq] at h
    obtain ⟨h1, h2⟩ := h
    subst h1; subst h2
    simp [contribSum, emittedServers]
  | cons val rest ih =>
    rcases exceptCases (parseServer service val) with hp | ⟨o, hp⟩
    · simp only [processServers, hp] at h
      simp at h
    · cases o with
      | none =>
        simp only [processServers, hp] at h
        obtain ⟨g1, g2, g3, g4, g5, g6, g7, g8, g9, g10, g11⟩ := ih h
        have hcs : contribSum service (val :: rest) = 1 + contribSum service rest := by
          simp [contribSum, backendContrib, hp]
        have g9b : ss2.NotAvailable = ss.NotAvailable + 1 + contribSum service rest := g9
        have g11b : ss2.Servers = emittedServers service rest ss.Servers := g11
        refine ⟨g1, g2, g3, g4, g5, g6, g7, g8, by omega, by omega, ?_⟩
        simp only [emittedServers, hp]
        exact g11b
      | some srv =>
        simp only [processServers, hp] at h
        by_cases hc : srv.ServerConnections < 1
        · rw [if_pos hc] at h
          obtain ⟨g1, g2, g3, g4, g5, g6, g7, g8, g9, g10, g11⟩ := ih h
          have hcs : contribSum service (val :: rest) = 1 + contribSum service rest := by
            simp [contribSum, backendContrib, hp, hc]
          have g9b : ss2.NotAvailable = ss.NotAvailable + 1 + contribSum service rest := g9
          have g11b : ss2.Servers =
              emittedServers service rest
                (mapInsert ss.Servers (resolvedHost val) srv) := g11
          refine ⟨g1, g2, g3, g4, g5, g6, g7, g8, by omega, by omega, ?_⟩
          simp only [emittedServers, hp]
          exact g11b
        · rw [if_neg hc] at h
          obtain ⟨g1, g2, g3, g4, g5, g6, g7, g8, g9, g10, g11⟩ := ih h
          have hcs : contribSum service (val :: rest) = contribSum service rest := by
            simp [contribSum, backendContrib, hp, hc]
          have g9b : ss2.NotAvailable = ss.NotAvailable + contribSum service rest := g9
          have g11b : ss2.Servers =
              emittedServers service rest
                (mapInsert ss.Servers (resolvedHost val) srv) := g11
          refine ⟨g1, g2, g3, g4, g5, g6, g7, g8, by omega, by omega, ?_⟩
          simp only [emittedServers, hp]
          exact g11b

theorem processServers_err_of_mem {service : Jobj} {servers : List Server}
    {val : Server} (hmem : val ∈ servers)
    (herr : parseServer service val = Except.error ()) :
    ∀ ss tna, processServers service servers ss tna = Except.error () := by
  induction servers with
  | nil => cases hmem
  | cons a rest ih =>
    intro ss tna
    rcases List.mem_cons.mp hmem with heq | hrest
    · subst heq
      simp only [processServers, herr]
    · rcases exceptCases (parseServer service a) with hp | ⟨o, hp⟩
      · simp only [processServers, hp]
      · cases o with
        | none => simp only [processServers, hp]; exact ih hrest _ _
        | some srv =>
          simp only [processServers, hp]
          by_cases hc : srv.ServerConnections < 1
          · rw [if_pos hc]; exact ih hrest _ _
          · rw [if_neg hc]; exact ih hrest _ _

theorem processServers_tna {service : Jobj} (servers : List Server) :
    ∀ (ss : ServiceStats) (tna : Nat),
      processServers service servers ss tna =
        match processServers service servers ss 0 with
        | Except.error e => Except.error e
        | Except.ok r => Except.ok (r.1, tna + r.2) := by
  induction servers with
  | nil => intro ss tna; simp [processServers]
  | cons val rest ih =>
    intro ss tna
    rcases exceptCases (parseServer service val) with hp | ⟨o, hp⟩
    · simp only [processServers, hp]
    · cases o with
      | none =>
        simp only [processServers, hp, Nat.zero_add]
        rw [ih _ (tna + 1), ih _ 1]
        cases processServers service rest
            { ss with NotAvailable := ss.NotAvailable + 1 } 0 with
        | error e => rfl
        | ok r =>
          simp only [Except.ok.injEq, Prod.mk.injEq]
          exact ⟨trivial, by omega⟩
      | some srv =>
        simp only [processServers, hp, Nat.zero_add]
        by_cases hc : srv.ServerConnections < 1
        · rw [if_pos hc, if_pos hc]
          rw [ih _ (tna + 1), ih _ 1]
          cases processServers service rest
              { ss with
                Servers := mapInsert ss.Servers (resolvedHost val) srv
                NotAvailable := ss.NotAvailable + 1 } 0 with
          | error e => rfl
          | ok r =>
            simp only [Except.ok.injEq, Prod.mk.injEq]
            exact ⟨trivial, by omega⟩
        · rw [if_neg hc, if_neg hc]
          rw [ih _ tna]

theorem processServers_congr {s1 s2 : Jobj} {servers : List Server}
    (hps : ∀ val ∈ servers, parseServer s1 val = parseServer s2 val) :
    ∀ ss tna, processServers s1 servers ss tna = processServers s2 servers ss tna := by
  induction servers with
  | nil => intro ss tna; rfl
  | cons val rest ih =>
    intro ss tna
    have h0 := hps val (by simp)
    have hrest : ∀ v ∈ rest, parseServer s1 v = parseServer s2 v :=
      fun v hv => hps v (List.mem_cons_of_mem _ hv)
    rcases exceptCases (parseServer s2 val) with hp | ⟨o, hp⟩
    · simp only [processServers, h0, hp]
    · cases o with
      | none => simp only [processServers, h0, hp]; exact ih hrest _ _
      | some srv =>
        simp only [processServers, h0, hp]
        by_cases hc : srv.ServerConnections < 1
        · rw [if_pos hc, if_pos hc]; exact ih hrest _ _
        · rw [if_neg hc, if_neg hc]; exact ih hrest _ _

/-! ### Lemmas about the emitted `Servers` map -/

theorem lookupA_emittedServers_notmem {service : Jobj} {servers : List Server}
    {k : String} (hh : k ∉ servers.map resolvedHost) :
    ∀ m, lookupA (emittedServers service servers m) k = lookupA m k := by
  induction servers with
  | nil => intro m; rfl
  | cons val rest ih =>
    intro m
    rw [List.map_cons] at hh
    have h1 : k ≠ resolvedHost val := fun he => hh (he ▸ List.mem_cons_self _ _)
    have h2 : k ∉ rest.map resolvedHost := fun he => hh (List.mem_cons_of_mem _ he)
    rcases exceptCases (parseServer service val) with hp | ⟨o, hp⟩
    · simp only [emittedServers, hp]
      exact ih h2 _
    · cases o with
      | none =>
        simp only [emittedServers, hp]
        exact ih h2 _
      | some srv =>
        simp only [emittedServers, hp]
        rw [ih h2]
        exact lookupA_mapInsert_ne _ _ (Ne.symm h1)

theorem lookupA_emittedServers_found {service : Jobj} {servers : List Server}
    {val : Server} {srv : ServerStats}
    (hnd : (servers.map resolvedHost).Nodup) (hmem : val ∈ servers)
    (hok : parseServer service val = Except.ok (some srv)) :
    ∀ m, lookupA (emittedServers service servers m) (resolvedHost val) = some srv := by
  induction servers with
  | nil => cases hmem
  | cons a rest ih =>
    intro m
    rw [List.map_cons, List.nodup_cons] at hnd
    obtain ⟨hna, hndr⟩ := hnd
    rcases List.mem_cons.mp hmem with heq | hrest
    · subst heq
      simp only [emittedServers, hok]
      rw [lookupA_emittedServers_notmem hna]
      exact lookupA_mapInsert_self _ _ _
    · rcases exceptCases (parseServer service a) with hp | ⟨o, hp⟩
      · simp only [emittedServers, hp]
        exact ih hndr hrest _
      · cases o with
        | none =>
          simp only [emittedServers, hp]
          exact ih hndr hrest _
        | some s2 =>
          simp only [emittedServers, hp]
          exact ih hndr hrest _

theorem lookupA_emittedServers_skipped {service : Jobj} {servers : List Server}
    {val : Server}
    (hnd : (servers.map resolvedHost).Nodup) (hmem : val ∈ servers)
    (hnone : parseServer service val = Except.ok none) :
    ∀ m, lookupA (emittedServers service servers m) (resolvedHost val) =
      lookupA m (resolvedHost val) := by
  induction servers with
  | nil => cases hmem
  | cons a rest ih =>
    intro m
    rw [List.map_cons, List.nodup_cons] at hnd
    obtain ⟨hna, hndr⟩ := hnd
    rcases List.mem_cons.mp hmem with heq | hrest
    · subst heq
      simp only [emittedServers, hnone]
      exact lookupA_emittedServers_notmem hna _
    · have hne : resolvedHost a ≠ resolvedHost val :=
        fun he => hna (he ▸ List.mem_map_of_mem _ hrest)
      rcases exceptCases (parseServer service a) with hp | ⟨o, hp⟩
      · simp only [emittedServers, hp]
        exact ih hndr hrest _
      · cases o with
        | none =>
          simp only [emittedServers, hp]
          exact ih hndr hrest _
        | some s2 =>
          simp only [emittedServers, hp]
          rw [ih hndr hrest]
          exact lookupA_mapInsert_ne _ _ hne

theorem mem_emittedServers {service : Jobj} {servers : List Server}
    {p : String × ServerStats} :
    ∀ {m}, p ∈ emittedServers service servers m →
      p ∈ m ∨ ∃ val ∈ servers, parseServer service val = Except.ok (some p.2) ∧
        p.1 = resolvedHost val := by
  induction servers with
  | nil =>
    intro m h
    exact Or.inl h
  | cons a rest ih =>
    intro m h
    rcases exceptCases (parseServer service a) with hp | ⟨o, hp⟩
    · simp only [emittedServers, hp] at h
      rcases ih h with h2 | ⟨val, hv, h3⟩
      · exact Or.inl h2
      · exact Or.inr ⟨val, List.mem_cons_of_mem _ hv, h3⟩
    · cases o with
      | none =>
        simp only [emittedServers, hp] at h
        rcases ih h with h2 | ⟨val, hv, h3⟩
        · exact Or.inl h2
        · exact Or.inr ⟨val, List.mem_cons_of_mem _ hv, h3⟩
      | some srv =>
        simp only [emittedServers, hp] at h
        rcases ih h with h2 | ⟨val, hv, h3⟩
        · rcases mem_mapInsert h2 with he | hm
          · refine Or.inr ⟨a, List.mem_cons_self _ _, ?_, ?_⟩
            · rw [he]
              exact hp
            · rw [he]
          · exact Or.inl hm
        · exact Or.inr ⟨val, List.mem_cons_of_mem _ hv, h3⟩

/-! ### The scalar extraction chains -/

theorem bindE_ok_red {α β : Type} (a : α) (f : α → Except Unit β) :
    (Except.ok a >>= f) = f a := rfl

theorem bindE_err_red {α β : Type} (f : α → Except Unit β) :
    ((Except.error () : Except Unit α) >>= f) = Except.error () := rfl

theorem serviceScalarsE_ok_isNum {service : Jobj}
    {t : Rat × Rat × Rat × Rat × Rat × Rat}
    (h : serviceScalarsE service = Except.ok t) :
    ∀ f ∈ svcFieldNames, isNum (jLookup service f) = true := by
  simp only [serviceScalarsE] at h
  obtain ⟨a1, e1, h⟩ := bindE_ok h
  obtain ⟨a2, e2, h⟩ := bindE_ok h
  obtain ⟨a3, e3, h⟩ := bindE_ok h
  obtain ⟨a4, e4, h⟩ := bindE_ok h
  obtain ⟨a5, e5, h⟩ := bindE_ok h
  obtain ⟨a6, e6, h⟩ := bindE_ok h
  have n1 := assertNum_ok_isNum e1
  have n2 := assertNum_ok_isNum e2
  have n3 := assertNum_ok_isNum e3
  have n4 := assertNum_ok_isNum e4
  have n5 := assertNum_ok_isNum e5
  have n6 := assertNum_ok_isNum e6
  intro f hf
  fin_cases hf <;> assumption

theorem serviceScalarsE_err_of_badfield {service : Jobj} {f : String}
    (hf : f ∈ svcFieldNames) (hbad : isNum (jLookup service f) = false) :
    serviceScalarsE service = Except.error () := by
  rcases exceptCases (serviceScalarsE service) with h | ⟨t, h⟩
  · exact h
  · rw [serviceScalarsE_ok_isNum h f hf] at hbad
    cases hbad

theorem topScalarsE_ok_shapes {stats : Jobj} {t : String × String × Rat × Rat}
    (h : topScalarsE stats = Except.ok t) : topFieldsOk stats = true := by
  simp only [topScalarsE] at h
  obtain ⟨a1, e1, h⟩ := bindE_ok h
  obtain ⟨a2, e2, h⟩ := bindE_ok h
  obtain ⟨a3, e3, h⟩ := bindE_ok h
  obtain ⟨a4, e4, h⟩ := bindE_ok h
  simp [topFieldsOk, assertString_ok_isStr e1, assertString_ok_isStr e2,
    assertNum_ok_isNum e3, assertNum_ok_isNum e4]

theorem topScalarsE_err_of_bad {stats : Jobj}
    (h : topFieldsOk stats = false) : topScalarsE stats = Except.error () := by
  rcases exceptCases (topScalarsE stats) with h2 | ⟨t, h2⟩
  · exact h2
  · rw [topScalarsE_ok_shapes h2] at h
    cases h

/-! ### Characterization of one outer-loop iteration -/

theorem processService_absent {stats : Jobj} {key : String} {c : Config}
    (h : jLookup stats key = none) (twemp : TwemproxyStats) :
    processService stats key c twemp = Except.ok twemp := by
  simp only [processService, h]

theorem processService_ok {stats : Jobj} {key : String} {c : Config}
    {twemp twemp2 : TwemproxyStats}
    (h : processService stats key c twemp = Except.ok twemp2) :
    twemp2.Service = twemp.Service ∧ twemp2.Source = twemp.Source ∧
    twemp2.TotalConnections = twemp.TotalConnections ∧
    twemp2.CurrentConnections = twemp.CurrentConnections ∧
    twemp2.ExpectedAvailable = twemp.ExpectedAvailable + serviceExpected stats key c ∧
    twemp2.NotAvailable = twemp.NotAvailable + serviceContrib stats key c ∧
    twemp2.Services = svUpdate stats key c twemp.Services ∧
    (∀ s, jLookup stats key = some s → ∃ sv, builtService stats key c = some sv) := by
  cases hk : jLookup stats key with
  | none =>
    simp only [processService, hk, Except.ok.injEq] at h
    subst h
    refine ⟨rfl, rfl, rfl, rfl, ?_, ?_, ?_, ?_⟩
    · simp [serviceExpected, hk]
    · simp [serviceContrib, hk]
    · simp [svUpdate, builtService, hk]
    · intro s hs
      cases hs
  | some s =>
    simp only [processService, hk] at h
    obtain ⟨service, e1, h⟩ := bindE_ok h
    obtain ⟨scal, e2, h⟩ := bindE_ok h
    obtain ⟨r, e3, h⟩ := bindE_ok h
    obtain ⟨rss, rtna⟩ := r
    simp only [Except.ok.injEq] at h
    subst h
    rw [processServers_tna c.Servers] at e3
    rcases exceptCases (processServers service c.Servers
        { Name := key
          ClientEOF := scal.1
          ClientErr := scal.2.1
          ClientConnections := scal.2.2.1
          ServerEjects := scal.2.2.2.1
          ForwardError := scal.2.2.2.2.1
          Fragments := scal.2.2.2.2.2
          ExpectedAvailable := c.Servers.length
          NotAvailable := 0
          Servers := [] } 0) with h0 | ⟨r0, h0⟩
    · rw [h0] at e3
      cases e3
    · rw [h0] at e3
      simp only [Except.ok.injEq, Prod.mk.injEq] at e3
      obtain ⟨erss, ertna⟩ := e3
      subst erss
      subst ertna
      have hb : builtService stats key c = some r0.1 := by
        simp only [builtService, hk]
        rw [e1, bindE_ok_red, e2, bindE_ok_red, h0, bindE_ok_red]
      have hsc : serviceContrib stats key c = contribSum service c.Servers := by
        simp [serviceContrib, hk, e1]
      have hse : serviceExpected stats key c = c.Servers.length := by
        simp [serviceExpected, hk]
      obtain ⟨q1, q2, q3, q4, q5, q6, q7, q8, q9, q10, q11⟩ := processServers_ok h0
      refine ⟨rfl, rfl, rfl, rfl, ?_, ?_, ?_, ?_⟩
      · rw [hse]
      · rw [hsc]
        have : r0.2 = 0 + contribSum service c.Servers := q10
        show twemp.NotAvailable + r0.2 = twemp.NotAvailable + contribSum service c.Servers
        omega
      · show mapInsert twemp.Services key r0.1 = svUpdate stats key c twemp.Services
        rw [svUpdate, hb]
      · intro s2 hs2
        exact ⟨r0.1, hb⟩

theorem processService_err_scalars {stats : Jobj} {key : String} {c : Config}
    {s : JsonValue} {service : Jobj} {f : String}
    (hk : jLookup stats key = some s)
    (hobj : assertObj (some s) = Except.ok service)
    (hf : f ∈ svcFieldNames) (hbad : isNum (jLookup service f) = false) :
    ∀ twemp, processService stats key c twemp = Except.error () := by
  intro twemp
  simp only [processService, hk]
  rw [hobj, bindE_ok_red]
  exact bindE_err_left _ (serviceScalarsE_err_of_badfield hf hbad)

theorem processService_err_servers {stats : Jobj} {key : String} {c : Config}
    {s : JsonValue} {service : Jobj}
    (hk : jLookup stats key = some s)
    (hobj : assertObj (some s) = Except.ok service)
    (hserr : ∀ ss tna, processServers service c.Servers ss tna = Except.error ()) :
    ∀ twemp, processService stats key c twemp = Except.error () := by
  intro twemp
  simp only [processService, hk]
  rw [hobj, bindE_ok_red]
  rcases exceptCases (serviceScalarsE service) with h2 | ⟨scal, h2⟩
  · exact bindE_err_left _ h2
  · rw [h2, bindE_ok_red]
    exact bindE_err_left _ (hserr _ _)

/-! ### Characterization of the whole outer loop -/

theorem processServices_append (stats : Jobj) (l1 l2 : List (String × Config)) :
    ∀ twemp, processServices stats (l1 ++ l2) twemp =
      match processServices stats l1 twemp with
      | Except.error e => Except.error e
      | Except.ok t1 => processServices stats l2 t1 := by
  induction l1 with
  | nil =>
    intro twemp
    rfl
  | cons p rest ih =>
    intro twemp
    obtain ⟨k1, c1⟩ := p
    simp only [List.cons_append, processServices]
    rcases exceptCases (processService stats k1 c1 twemp) with hp | ⟨t1, hp⟩
    · rw [hp]
    · rw [hp]
      exact ih t1

theorem processServices_err_of_mem {stats : Jobj} {config : List (String × Config)}
    {key : String} {c : Config} (hmem : (key, c) ∈ config)
    (herr : ∀ twemp, processService stats key c twemp = Except.error ()) :
    ∀ twemp, processServices stats config twemp = Except.error () := by
  induction config with
  | nil => cases hmem
  | cons p rest ih =>
    intro twemp
    obtain ⟨k1, c1⟩ := p
    rcases List.mem_cons.mp hmem with heq | hrest
    · simp only [Prod.mk.injEq] at heq
      obtain ⟨h1, h2⟩ := heq
      subst h1
      subst h2
      simp only [processServices, herr twemp]
    · simp only [processServices]
      rcases exceptCases (processService stats k1 c1 twemp) with hp | ⟨t1, hp⟩
      · rw [hp]
      · rw [hp]
        exact ih hrest t1

theorem processServices_ok {stats : Jobj} {config : List (String × Config)}
    {twemp st : TwemproxyStats}
    (h : processServices stats config twemp = Except.ok st) :
    st.Service = twemp.Service ∧ st.Source = twemp.Source ∧
    st.TotalConnections = twemp.TotalConnections ∧
    st.CurrentConnections = twemp.CurrentConnections ∧
    st.ExpectedAvailable = twemp.ExpectedAvailable + expectedTotal stats config ∧
    st.NotAvailable = twemp.NotAvailable + contribTotal stats config ∧
    st.Services = svFold stats config twemp.Services ∧
    ∀ p ∈ config, jLookup stats p.1 = none ∨
      ∃ sv, builtService stats p.1 p.2 = some sv := by
  induction config generalizing twemp with
  | nil =>
    simp only [processServices, Except.ok.injEq] at h
    subst h
    refine ⟨rfl, rfl, rfl, rfl, by simp [expectedTotal], by simp [contribTotal],
      rfl, ?_⟩
    intro p hp
    cases hp
  | cons p rest ih =>
    obtain ⟨k1, c1⟩ := p
    simp only [processServices] at h
    rcases exceptCases (processService stats k1 c1 twemp) with hp | ⟨t1, hp⟩
    · rw [hp] at h
      cases h
    · rw [hp] at h
      obtain ⟨f1, f2, f3, f4, f5, f6, f7, f8⟩ := processService_ok hp
      obtain ⟨g1, g2, g3, g4, g5, g6, g7, g8⟩ := ih h
      refine ⟨g1.trans f1, g2.trans f2, g3.trans f3, g4.trans f4, ?_, ?_, ?_, ?_⟩
      · simp only [expectedTotal]
        omega
      · simp only [contribTotal]
        omega
      · simp only [svFold]
        rw [g7, f7]
      · intro q hq
        rcases List.mem_cons.mp hq with heq | hrest
        · subst heq
          cases hk : jLookup stats k1 with
          | none => exact Or.inl rfl
          | some s => exact Or.inr (f8 s hk)
        · exact g8 q hrest

/-! ### From `parseStats` outcomes to the loop characterizations -/

theorem parseStats_ok_elim {stats : Jobj} {config : List (String × Config)}
    {st : TwemproxyStats}
    (h : parseStats (some stats) config = ParseOutcome.parsed st) :
    ∃ t, topScalarsE stats = Except.ok t ∧
      processServices stats config
        { Service := t.1
          Source := t.2.1
          TotalConnections := t.2.2.1
          CurrentConnections := t.2.2.2
          Services := [] } = Except.ok st := by
  simp only [parseStats] at h
  rcases exceptCases (topScalarsE stats) with ht | ⟨t, ht⟩
  · rw [ht, bindE_err_red] at h
    cases h
  · rw [ht, bindE_ok_red] at h
    rcases exceptCases (processServices stats config
        { Service := t.1
          Source := t.2.1
          TotalConnections := t.2.2.1
          CurrentConnections := t.2.2.2
          Services := [] }) with h2 | ⟨st2, h2⟩
    · rw [h2] at h
      cases h
    · rw [h2] at h
      simp only [ParseOutcome.parsed.injEq] at h
      subst h
      exact ⟨t, ht, h2⟩

theorem parseStats_castFailure_top {stats : Jobj} {config : List (String × Config)}
    (h : topScalarsE stats = Except.error ()) :
    parseStats (some stats) config = ParseOutcome.castFailure := by
  simp only [parseStats]
  rw [h, bindE_err_red]

theorem parseStats_castFailure_services {stats : Jobj}
    {config : List (String × Config)}
    (h : ∀ twemp, processServices stats config twemp = Except.error ()) :
    parseStats (some stats) config = ParseOutcome.castFailure := by
  simp only [parseStats]
  rcases exceptCases (topScalarsE stats) with ht | ⟨t, ht⟩
  · rw [ht, bindE_err_red]
  · rw [ht, bindE_ok_red, h]

theorem parseStats_congr {stats : Jobj} {config1 config2 : List (String × Config)}
    (h : ∀ twemp, processServices stats config1 twemp =
      processServices stats config2 twemp) :
    parseStats (some stats) config1 = parseStats (some stats) config2 := by
  simp only [parseStats]
  rcases exceptCases (topScalarsE stats) with ht | ⟨t, ht⟩
  · rw [ht]
    simp only [bindE_err_red]
  · rw [ht, bindE_ok_red, bindE_ok_red, h]

/-! ### The built service record and the `Services` map fold -/

theorem builtService_fields {stats : Jobj} {key : String} {c : Config}
    {sv : ServiceStats} (h : builtService stats key c = some sv) :
    sv.Name = key ∧ sv.ExpectedAvailable = c.Servers.length ∧
    sv.NotAvailable = serviceContrib stats key c ∧
    ∃ s service, jLookup stats key = some s ∧
      assertObj (some s) = Except.ok service ∧
      sv.Servers = emittedServers service c.Servers [] ∧
      sv.NotAvailable = contribSum service c.Servers := by
  cases hk : jLookup stats key with
  | none => simp [builtService, hk] at h
  | some s =>
    simp only [builtService, hk] at h
    rcases exceptCases (assertObj (some s)) with h1 | ⟨service, h1⟩
    · rw [h1, bindE_err_red] at h
      cases h
    · rw [h1, bindE_ok_red] at h
      rcases exceptCases (serviceScalarsE service) with h2 | ⟨scal, h2⟩
      · rw [h2, bindE_err_red] at h
        cases h
      · rw [h2, bindE_ok_red] at h
        rcases exceptCases (processServers service c.Servers
            { Name := key
              ClientEOF := scal.1
              ClientErr := scal.2.1
              ClientConnections := scal.2.2.1
              ServerEjects := scal.2.2.2.1
              ForwardError := scal.2.2.2.2.1
              Fragments := scal.2.2.2.2.2
              ExpectedAvailable := c.Servers.length
              NotAvailable := 0
              Servers := [] } 0) with h3 | ⟨r0, h3⟩
        · rw [h3, bindE_err_red] at h
          cases h
        · rw [h3, bindE_ok_red] at h
          have h4 : some r0.1 = some sv := h
          injection h4 with h5
          obtain ⟨q1, q2, q3, q4, q5, q6, q7, q8, q9, q10, q11⟩ :=
            processServers_ok h3
          have hsc : serviceContrib stats key c = contribSum service c.Servers := by
            simp [serviceContrib, hk, h1]
          have hna : sv.NotAvailable = 0 + contribSum service c.Servers :=
            h5 ▸ q9
          refine ⟨h5 ▸ q1, h5 ▸ q8, ?_, s, service, rfl, h1, h5 ▸ q11, by omega⟩
          rw [hsc]
          omega

theorem lookupA_svFold_absent {stats : Jobj} {k : String}
    (hk : jLookup stats k = none) :
    ∀ (config : List (String × Config)) (m : List (String × ServiceStats)),
      lookupA (svFold stats config m) k = lookupA m k := by
  intro config
  induction config with
  | nil => intro m; rfl
  | cons p rest ih =>
    intro m
    obtain ⟨k1, c1⟩ := p
    simp only [svFold]
    rw [ih]
    cases hb : builtService stats k1 c1 with
    | none => simp [svUpdate, hb]
    | some sv =>
      simp only [svUpdate, hb]
      have hne : k1 ≠ k := by
        intro he
        subst he
        obtain ⟨-, -, -, s, service, hs, -, -, -⟩ := builtService_fields hb
        rw [hk] at hs
        cases hs
      exact lookupA_mapInsert_ne _ _ hne

theorem mem_svFold {stats : Jobj} {p : String × ServiceStats} :
    ∀ {config : List (String × Config)} {m : List (String × ServiceStats)},
      p ∈ svFold stats config m →
      p ∈ m ∨ ∃ c, (p.1, c) ∈ config ∧ builtService stats p.1 c = some p.2 := by
  intro config
  induction config with
  | nil =>
    intro m h
    exact Or.inl h
  | cons q rest ih =>
    intro m h
    obtain ⟨k1, c1⟩ := q
    simp only [svFold] at h
    rcases ih h with h2 | ⟨c, hc, hb⟩
    · cases hbq : builtService stats k1 c1 with
      | none =>
        rw [svUpdate, hbq] at h2
        exact Or.inl h2
      | some sv =>
        simp only [svUpdate, hbq] at h2
        rcases mem_mapInsert h2 with he | hm
        · refine Or.inr ⟨c1, ?_, ?_⟩
          · rw [he]
            exact List.mem_cons_self _ _
          · rw [he]
            exact hbq
        · exact Or.inl hm
    · exact Or.inr ⟨c, List.mem_cons_of_mem _ hc, hb⟩

theorem naSum_append (m1 m2 : List (String × ServiceStats)) :
    naSum (m1 ++ m2) = naSum m1 + naSum m2 := by
  induction m1 with
  | nil => simp [naSum]
  | cons p rest ih =>
    have h1 : naSum ((p :: rest) ++ m2) = p.2.NotAvailable + naSum (rest ++ m2) := rfl
    have h2 : naSum (p :: rest) = p.2.NotAvailable + naSum rest := rfl
    rw [h1, h2, ih]
    omega

theorem eaSum_append (m1 m2 : List (String × ServiceStats)) :
    eaSum (m1 ++ m2) = eaSum m1 + eaSum m2 := by
  induction m1 with
  | nil => simp [eaSum]
  | cons p rest ih =>
    have h1 : eaSum ((p :: rest) ++ m2) = p.2.ExpectedAvailable + eaSum (rest ++ m2) := rfl
    have h2 : eaSum (p :: rest) = p.2.ExpectedAvailable + eaSum rest := rfl
    rw [h1, h2, ih]
    omega

theorem naSum_svFold {stats : Jobj} (config : List (String × Config)) :
    ∀ (m : List (String × ServiceStats)),
      (config.map Prod.fst).Nodup →
      (∀ p ∈ config, lookupA m p.1 = none) →
      (∀ p ∈ config, jLookup stats p.1 = none ∨
        ∃ sv, builtService stats p.1 p.2 = some sv) →
      naSum (svFold stats config m) = naSum m + contribTotal stats config := by
  induction config with
  | nil =>
    intro m _ _ _
    simp [svFold, contribTotal]
  | cons q rest ih =>
    intro m hnd hfresh hbuilt
    obtain ⟨k1, c1⟩ := q
    rw [List.map_cons, List.nodup_cons] at hnd
    obtain ⟨hn1, hn2⟩ := hnd
    have hfresh1 : lookupA m k1 = none := hfresh (k1, c1) (List.mem_cons_self _ _)
    simp only [svFold, contribTotal]
    rcases hbuilt (k1, c1) (List.mem_cons_self _ _) with habs | ⟨sv, hb⟩
    · have habs2 : jLookup stats k1 = none := habs
      have hbnone : builtService stats k1 c1 = none := by
        rw [builtService, habs2]
      have hupd : svUpdate stats k1 c1 m = m := by
        rw [svUpdate, hbnone]
      have hsc0 : serviceContrib stats k1 c1 = 0 := by
        rw [serviceContrib, habs2]
      rw [hupd, ih m hn2 (fun p hp => hfresh p (List.mem_cons_of_mem _ hp))
        (fun p hp => hbuilt p (List.mem_cons_of_mem _ hp)), hsc0]
      omega
    · have hb2 : builtService stats k1 c1 = some sv := hb
      have hupd : svUpdate stats k1 c1 m = m ++ [(k1, sv)] := by
        rw [svUpdate, hb2]
        exact mapInsert_of_lookupA_none hfresh1 sv
      have hfresh2 : ∀ p ∈ rest, lookupA (m ++ [(k1, sv)]) p.1 = none := by
        intro p hp
        have hne : k1 ≠ p.1 := fun he =>
          hn1 (List.mem_map.mpr ⟨p, hp, he.symm⟩)
        rw [lookupA_append_left_none (hfresh p (List.mem_cons_of_mem _ hp))]
        simp [lookupA, hne]
      obtain ⟨-, -, hna, -⟩ := builtService_fields hb2
      rw [hupd, ih (m ++ [(k1, sv)]) hn2 hfresh2
        (fun p hp => hbuilt p (List.mem_cons_of_mem _ hp)), naSum_append]
      simp only [naSum]
      omega

theorem eaSum_svFold {stats : Jobj} (config : List (String × Config)) :
    ∀ (m : List (String × ServiceStats)),
      (config.map Prod.fst).Nodup →
      (∀ p ∈ config, lookupA m p.1 = none) →
      (∀ p ∈ config, jLookup stats p.1 = none ∨
        ∃ sv, builtService stats p.1 p.2 = some sv) →
      eaSum (svFold stats config m) = eaSum m + expectedTotal stats config := by
  induction config with
  | nil =>
    intro m _ _ _
    simp [svFold, expectedTotal]
  | cons q rest ih =>
    intro m hnd hfresh hbuilt
    obtain ⟨k1, c1⟩ := q
    rw [List.map_cons, List.nodup_cons] at hnd
    obtain ⟨hn1, hn2⟩ := hnd
    have hfresh1 : lookupA m k1 = none := hfresh (k1, c1) (List.mem_cons_self _ _)
    simp only [svFold, expectedTotal]
    rcases hbuilt (k1, c1) (List.mem_cons_self _ _) with habs | ⟨sv, hb⟩
    · have habs2 : jLookup stats k1 = none := habs
      have hbnone : builtService stats k1 c1 = none := by
        rw [builtService, habs2]
      have hupd : svUpdate stats k1 c1 m = m := by
        rw [svUpdate, hbnone]
      have hse0 : serviceExpected stats k1 c1 = 0 := by
        rw [serviceExpected, habs2]
      rw [hupd, ih m hn2 (fun p hp => hfresh p (List.mem_cons_of_mem _ hp))
        (fun p hp => hbuilt p (List.mem_cons_of_mem _ hp)), hse0]
      omega
    · have hb2 : builtService stats k1 c1 = some sv := hb
      have hupd : svUpdate stats k1 c1 m = m ++ [(k1, sv)] := by
        rw [svUpdate, hb2]
        exact mapInsert_of_lookupA_none hfresh1 sv
      have hfresh2 : ∀ p ∈ rest, lookupA (m ++ [(k1, sv)]) p.1 = none := by
        intro p hp
        have hne : k1 ≠ p.1 := fun he =>
          hn1 (List.mem_map.mpr ⟨p, hp, he.symm⟩)
        rw [lookupA_append_left_none (hfresh p (List.mem_cons_of_mem _ hp))]
        simp [lookupA, hne]
      obtain ⟨-, hea, -, s, service, hs, -, -, -⟩ := builtService_fields hb2
      have hse : serviceExpected stats k1 c1 = c1.Servers.length := by
        simp [serviceExpected, hs]
      rw [hupd, ih (m ++ [(k1, sv)]) hn2 hfresh2
        (fun p hp => hbuilt p (List.mem_cons_of_mem _ hp)), eaSum_append, hse]
      simp only [eaSum]
      omega

/-! ### Bounds and totals -/

theorem backendContrib_le_one (service : Jobj) (val : Server) :
    backendContrib service val ≤ 1 := by
  rcases exceptCases (parseServer service val) with hp | ⟨o, hp⟩
  · simp only [backendContrib, hp]
    omega
  · cases o with
    | none =>
      simp only [backendContrib, hp]
      omega
    | some srv =>
      simp only [backendContrib, hp]
      split <;> omega

theorem contribSum_le_length (service : Jobj) :
    ∀ servers : List Server, contribSum service servers ≤ servers.length := by
  intro servers
  induction servers with
  | nil => simp [contribSum]
  | cons val rest ih =>
    have h1 := backendContrib_le_one service val
    simp only [contribSum, List.length_cons]
    omega

theorem serviceContrib_le (stats : Jobj) (key : String) (c : Config) :
    serviceContrib stats key c ≤ serviceExpected stats key c := by
  cases hk : jLookup stats key with
  | none => simp [serviceContrib, serviceExpected, hk]
  | some s =>
    simp only [serviceContrib, serviceExpected, hk]
    rcases exceptCases (assertObj (some s)) with h1 | ⟨service, h1⟩
    · rw [h1]
      exact Nat.zero_le _
    · rw [h1]
      exact contribSum_le_length service c.Servers

theorem contribTotal_le_expectedTotal (stats : Jobj) :
    ∀ config : List (String × Config),
      contribTotal stats config ≤ expectedTotal stats config := by
  intro config
  induction config with
  | nil => exact Nat.le_refl 0
  | cons q rest ih =>
    obtain ⟨k1, c1⟩ := q
    have h1 := serviceContrib_le stats k1 c1
    simp only [contribTotal, expectedTotal]
    omega

theorem expectedTotal_eq_declared {stats : Jobj} :
    ∀ {config : List (String × Config)},
      (∀ p ∈ config, jLookup stats p.1 ≠ none) →
      expectedTotal stats config = declaredSum config := by
  intro config
  induction config with
  | nil => intro _; rfl
  | cons q rest ih =>
    intro hp
    obtain ⟨k1, c1⟩ := q
    have h1 := hp (k1, c1) (List.mem_cons_self _ _)
    simp only [expectedTotal, declaredSum]
    cases hk : jLookup stats k1 with
    | none => exact absurd hk h1
    | some s =>
      have hse : serviceExpected stats k1 c1 = c1.Servers.length := by
        simp [serviceExpected, hk]
      rw [hse, ih (fun p hp2 => hp p (List.mem_cons_of_mem _ hp2))]

theorem contribSum_eq_zero {service : Jobj} :
    ∀ {servers : List Server},
      (∀ val ∈ servers, backendContrib service val = 0) →
      contribSum service servers = 0 := by
  intro servers
  induction servers with
  | nil => intro _; rfl
  | cons val rest ih =>
    intro h
    simp only [contribSum, h val (List.mem_cons_self _ _),
      ih (fun v hv => h v (List.mem_cons_of_mem _ hv))]

theorem contribTotal_eq_zero {stats : Jobj} :
    ∀ {config : List (String × Config)},
      (∀ p ∈ config, serviceContrib stats p.1 p.2 = 0) →
      contribTotal stats config = 0 := by
  intro config
  induction config with
  | nil => intro _; rfl
  | cons q rest ih =>
    intro h
    obtain ⟨k1, c1⟩ := q
    have h1 := h (k1, c1) (List.mem_cons_self _ _)
    simp only [contribTotal]
    rw [ih (fun p hp => h p (List.mem_cons_of_mem _ hp))]
    simpa using h1

/-! ### Congruence under extra raw keys -/

theorem jLookup_cons_ne {k0 : String} {v0 : JsonValue} {m : Jobj} {k : String}
    (h : k0 ≠ k) : jLookup ((k0, v0) :: m) k = jLookup m k := by
  simp [jLookup, lookupA, h]

theorem parseServer_cons_ne {service : Jobj} {k0 : String} {v0 : JsonValue}
    {val : Server} (h : k0 ≠ resolvedHost val) :
    parseServer ((k0, v0) :: service) val = parseServer service val := by
  simp only [parseServer, jLookup_cons_ne h]

theorem serviceScalarsE_cons_notmem {service : Jobj} {k0 : String} {v0 : JsonValue}
    (h : k0 ∉ svcFieldNames) :
    serviceScalarsE ((k0, v0) :: service) = serviceScalarsE service := by
  have h1 : k0 ≠ "client_eof" := fun he => h (by rw [he]; simp [svcFieldNames])
  have h2 : k0 ≠ "client_err" := fun he => h (by rw [he]; simp [svcFieldNames])
  have h3 : k0 ≠ "client_connections" := fun he => h (by rw [he]; simp [svcFieldNames])
  have h4 : k0 ≠ "server_ejects" := fun he => h (by rw [he]; simp [svcFieldNames])
  have h5 : k0 ≠ "forward_error" := fun he => h (by rw [he]; simp [svcFieldNames])
  have h6 : k0 ≠ "fragments" := fun he => h (by rw [he]; simp [svcFieldNames])
  simp only [serviceScalarsE, jLookup_cons_ne h1, jLookup_cons_ne h2,
    jLookup_cons_ne h3, jLookup_cons_ne h4, jLookup_cons_ne h5, jLookup_cons_ne h6]

theorem processService_extra_raw_key {stats0 : Jobj} {key : String} {c : Config}
    {k0 : String} {v0 : JsonValue} {service : Jobj}
    (hf : k0 ∉ svcFieldNames) (hs : ∀ val ∈ c.Servers, k0 ≠ resolvedHost val)
    (twemp : TwemproxyStats) :
    processService ((key, JsonValue.obj ((k0, v0) :: service)) :: stats0) key c
        twemp =
      processService ((key, JsonValue.obj service) :: stats0) key c twemp := by
  have hl1 : jLookup ((key, JsonValue.obj ((k0, v0) :: service)) :: stats0) key =
      some (JsonValue.obj ((k0, v0) :: service)) := lookupA_cons_self _ _ _
  have hl2 : jLookup ((key, JsonValue.obj service) :: stats0) key =
      some (JsonValue.obj service) := lookupA_cons_self _ _ _
  have ha1 : assertObj (some (JsonValue.obj ((k0, v0) :: service))) =
      Except.ok ((k0, v0) :: service) := rfl
  have ha2 : assertObj (some (JsonValue.obj service)) = Except.ok service := rfl
  simp only [processService, hl1, hl2]
  rw [ha1, bindE_ok_red, ha2, bindE_ok_red, serviceScalarsE_cons_notmem hf]
  rcases exceptCases (serviceScalarsE service) with h2 | ⟨scal, h2⟩
  · rw [h2, bindE_err_red, bindE_err_red]
  · rw [h2, bindE_ok_red, bindE_ok_red]
    rw [processServers_congr (fun val hv => parseServer_cons_ne (hs val hv)) _ _]

theorem processServices_middle_absent {stats : Jobj} {key : String} {c : Config}
    (habs : jLookup stats key = none) (cfg1 cfg2 : List (String × Config)) :
    ∀ twemp, processServices stats (cfg1 ++ (key, c) :: cfg2) twemp =
      processServices stats (cfg1 ++ cfg2) twemp := by
  intro twemp
  rw [processServices_append, processServices_append]
  rcases exceptCases (processServices stats cfg1 twemp) with h | ⟨t1, h⟩
  · rw [h]
  · rw [h]
    simp only [processServices, processService_absent habs t1]

/-! ### The claims -/

/-- Claim C1 is false on the code: with topology `beta ↦ 3 backends` and a
well-formed payload lacking a `beta` key, translation succeeds, contributes
nothing from `beta` to `notAvailable` and emits no `beta` entry (as claimed)
— but the top-level `ExpectedAvailable` is 0, not 3: the `continue` at line
78 of `exporter_stats.go` fires before the increment at line 80, so the
absent service's declared backends are NOT counted. -/
theorem c1_counterexample :
    parseStats (some topScalars) cfgBeta =
      ParseOutcome.parsed
        { Service := "nutcracker", Source := "host1",
          TotalConnections := 10, CurrentConnections := 3 } ∧
    (parsedOf (parseStats (some topScalars) cfgBeta)).ExpectedAvailable = 0 ∧
    (parsedOf (parseStats (some topScalars) cfgBeta)).ExpectedAvailable ≠ 3 ∧
    (parsedOf (parseStats (some topScalars) cfgBeta)).NotAvailable = 0 ∧
    lookupA (parsedOf (parseStats (some topScalars) cfgBeta)).Services "beta" =
      none :=
  ⟨rfl, rfl, by decide, rfl, rfl⟩

/-- Claim C1 (amended): when a service declared in the topology has no
matching top-level key in the payload, the outer loop skips it entirely:
no entry is emitted for it in `Services` and it contributes nothing to the
top-level `notAvailable` — but, contrary to the claim, its declared
backends are NOT counted toward the top-level `expectedAvailable` either;
removing the service from the topology leaves the snapshot unchanged. -/
theorem c1_amended (stats : Jobj) (cfg1 cfg2 : List (String × Config))
    (key : String) (c : Config) (habs : jLookup stats key = none) :
    parseStats (some stats) (cfg1 ++ (key, c) :: cfg2) =
      parseStats (some stats) (cfg1 ++ cfg2) ∧
    ∀ st, parseStats (some stats) (cfg1 ++ (key, c) :: cfg2) =
      ParseOutcome.parsed st → lookupA st.Services key = none := by
  constructor
  · exact parseStats_congr (processServices_middle_absent habs cfg1 cfg2)
  · intro st hok
    obtain ⟨t, ht, hps⟩ := parseStats_ok_elim hok
    obtain ⟨-, -, -, -, -, -, g7, -⟩ := processServices_ok hps
    have g7b : st.Services = svFold stats (cfg1 ++ (key, c) :: cfg2) [] := g7
    rw [g7b, lookupA_svFold_absent habs]
    rfl

/-- Claim C1 (amended) witness at a concrete input. -/
theorem c1_amended_witness :
    jLookup topScalars "beta" = none ∧
    parseStats (some topScalars) ([] ++ ("beta", cBeta) :: []) =
      parseStats (some topScalars) ([] ++ []) ∧
    lookupA (parsedOf (parseStats (some topScalars)
      ([] ++ ("beta", cBeta) :: []))).Services "beta" = none := by
  have h := c1_amended topScalars [] [] "beta" cBeta rfl
  exact ⟨rfl, h.1, h.2 _ rfl⟩

/-- Claim C2 is wrong and the code is the bug: when `net.Dial` fails,
`Monitor.Run` (exporter.go line 185-191) only logs the error and then calls
`conn.Read` on the nil connection — a nil-pointer dereference that crashes
the whole process instead of abandoning the tick; when the payload does not
unmarshal, the tick is not abandoned either: the two top-level gauges are
overwritten from the zero-valued snapshot; and a failed type assertion
inside `parseStats` likewise crashes the process. -/
theorem c2_code_bug :
    monitorRun false (some topScalars) cfgBeta = RunOutcome.crashed ∧
    monitorRun true none cfgBeta = RunOutcome.published {} ∧
    ({} : TwemproxyStats).TotalConnections = 0 ∧
    monitorRun true (some topMissingService) cfgBeta = RunOutcome.crashed :=
  ⟨rfl, rfl, rfl, rfl⟩

/-- Claim C3 is false on the code: with the payload missing the mandatory
`service` field, `parseStats` does not return a `MissingField` error value —
the unchecked assertion `stats["service"].(string)` panics, which in this
embedding is the `castFailure` outcome, and through `Monitor.Run` it crashes
the process. -/
theorem c3_counterexample :
    parseStats (some topMissingService) cfgBeta = ParseOutcome.castFailure ∧
    monitorRun true (some topMissingService) cfgBeta = RunOutcome.crashed :=
  ⟨rfl, rfl⟩

/-- Claim C3 (amended): a payload that parses as an object but lacks one of
the four mandatory top-level scalars (or has it with the wrong shape), or in
which a declared, present service block lacks one of the six mandatory
service-level scalars (or has it with the wrong shape), makes translation
panic via an unchecked type assertion — no error value and no snapshot is
ever returned. -/
theorem c3_amended (stats : Jobj) (config : List (String × Config))
    (h : topFieldsOk stats = false ∨
      ∃ key c service f, (key, c) ∈ config ∧
        jLookup stats key = some (JsonValue.obj service) ∧
        f ∈ svcFieldNames ∧ isNum (jLookup service f) = false) :
    parseStats (some stats) config = ParseOutcome.castFailure := by
  rcases h with h | ⟨key, c, service, f, hmem, hk, hf, hbad⟩
  · exact parseStats_castFailure_top (topScalarsE_err_of_bad h)
  · exact parseStats_castFailure_services
      (processServices_err_of_mem hmem
        (processService_err_scalars hk rfl hf hbad))

/-- Claim C3 (amended) witness: `alpha` is present but lacks `client_eof`. -/
theorem c3_amended_witness :
    (("alpha", cAlpha) ∈ cfgAlpha ∧
      jLookup pMissingSvcField "alpha" = some (JsonValue.obj svcMissingEOF) ∧
      "client_eof" ∈ svcFieldNames ∧
      isNum (jLookup svcMissingEOF "client_eof") = false) ∧
    parseStats (some pMissingSvcField) cfgAlpha = ParseOutcome.castFailure := by
  refine ⟨⟨by decide, rfl, by decide, rfl⟩, ?_⟩
  exact c3_amended _ _ (Or.inr ⟨"alpha", cAlpha, svcMissingEOF, "client_eof",
    by decide, rfl, by decide, rfl⟩)

/-- Claim C4 is false on the code: a found backend sub-document missing the
leaf field `server_eof` does not get a zero default — the unchecked
assertion `srv["server_eof"].(float64)` panics, failing the whole
translation (and crashing the process through `Monitor.Run`). -/
theorem c4_counterexample :
    parseStats (some pMissingLeaf) cfgAlpha = ParseOutcome.castFailure ∧
    monitorRun true (some pMissingLeaf) cfgAlpha = RunOutcome.crashed :=
  ⟨rfl, rfl⟩

/-- Claim C4 (amended): for a declared backend whose resolved host key is
found in its service's raw sub-document, any of the thirteen numeric
server-level fields that is absent (or not a number) makes translation
panic via an unchecked type assertion; no field is ever defaulted to
zero. -/
theorem c4_amended (stats : Jobj) (config : List (String × Config))
    (key : String) (c : Config) (service srvo : Jobj) (val : Server) (f : String)
    (hmem : (key, c) ∈ config)
    (hblock : jLookup stats key = some (JsonValue.obj service))
    (hval : val ∈ c.Servers)
    (hfound : jLookup service (resolvedHost val) = some (JsonValue.obj srvo))
    (hf : f ∈ srvFieldNames)
    (hbad : isNum (jLookup srvo f) = false) :
    parseStats (some stats) config = ParseOutcome.castFailure := by
  have hps : parseServer service val = Except.error () :=
    parseServer_err_of_badfield hfound hf hbad
  exact parseStats_castFailure_services
    (processServices_err_of_mem hmem
      (processService_err_servers hblock rfl
        (processServers_err_of_mem hval hps)))

/-- Claim C4 (amended) witness: `cache2` is found but lacks `server_eof`. -/
theorem c4_amended_witness :
    (("alpha", cAlpha) ∈ cfgAlpha ∧
      jLookup pMissingLeaf "alpha" = some (JsonValue.obj svcLeafDoc) ∧
      bDown ∈ cAlpha.Servers ∧
      jLookup svcLeafDoc (resolvedHost bDown) =
        some (JsonValue.obj srvDocMissingEOF) ∧
      "server_eof" ∈ srvFieldNames ∧
      isNum (jLookup srvDocMissingEOF "server_eof") = false) ∧
    parseStats (some pMissingLeaf) cfgAlpha = ParseOutcome.castFailure := by
  refine ⟨⟨by decide, rfl, by decide, rfl, by decide, rfl⟩, ?_⟩
  exact c4_amended pMissingLeaf cfgAlpha "alpha" cAlpha svcLeafDoc
    srvDocMissingEOF bDown "server_eof" (by decide) rfl (by decide) rfl
    (by decide) rfl

/-- Claim C5 is false on the code: for the aliased backend
`10.0.0.2 cache2`, the emitted record is keyed by the alias and has
`Host = "cache2"`, but its display alias `HostAlias` is the underlying
address `"10.0.0.2"`, not the alias (line 94 of `exporter_stats.go` sets
`hostAlias := val.IP` and the aliasing decoration is commented out). -/
theorem c5_counterexample :
    parseStats (some pAlias) cfgAlpha = ParseOutcome.parsed stFull ∧
    lookupA stFull.Services "alpha" = some svAlpha ∧
    lookupA svAlpha.Servers "cache2" = some eCache2 ∧
    eCache2.Host = "cache2" ∧ eCache2.HostAlias = "10.0.0.2" ∧
    eCache2.HostAlias ≠ "cache2" :=
  ⟨rfl, rfl, rfl, rfl, rfl, by decide⟩

/-- Claim C5 (amended): for every declared backend with a non-empty alias
whose sub-document is found and extracted, the map key and the `Host` field
are the alias, but the display alias `HostAlias` is the underlying
address. -/
theorem c5_amended (service : Jobj) (val : Server) (srv : ServerStats)
    (halias : val.Alias ≠ "")
    (hok : parseServer service val = Except.ok (some srv)) :
    resolvedHost val = val.Alias ∧ srv.Host = val.Alias ∧
    srv.HostAlias = val.IP := by
  have hr : resolvedHost val = val.Alias := by
    rw [resolvedHost, if_pos halias]
  obtain ⟨h1, h2, -⟩ := parseServer_ok_fields hok
  exact ⟨hr, hr ▸ h1, h2⟩

/-- Claim C5 (amended) witness at the aliased backend. -/
theorem c5_amended_witness :
    bDown.Alias ≠ "" ∧
    parseServer svcAliasDoc bDown = Except.ok (some eCache2) ∧
    resolvedHost bDown = bDown.Alias ∧ eCache2.Host = bDown.Alias ∧
    eCache2.HostAlias = bDown.IP := by
  have h := c5_amended svcAliasDoc bDown eCache2 (by decide) rfl
  exact ⟨by decide, rfl, h.1, h.2.1, h.2.2⟩

/-- Claim C6: in the inner backend loop (which threads the service-level
counter in `ss` and the top-level counter `tna` in lockstep), a declared
backend whose resolved host key is absent from the sub-document contributes
exactly 1 to both counters and leaves the `Servers` map untouched at its
key, while a found backend reporting fewer than one connection contributes
exactly 1 to both counters and still has its entry in the map; the final
counters are the initial ones plus the sum of per-backend contributions. -/
theorem c6_backend_contribution (service : Jobj) (servers : List Server)
    (ss : ServiceStats) (tna : Nat) (ss2 : ServiceStats) (tna2 : Nat)
    (hnd : (servers.map resolvedHost).Nodup)
    (hrun : processServers service servers ss tna = Except.ok (ss2, tna2)) :
    (ss2.NotAvailable = ss.NotAvailable + contribSum service servers ∧
     tna2 = tna + contribSum service servers) ∧
    ∀ val ∈ servers,
      (jLookup service (resolvedHost val) = none →
        backendContrib service val = 1 ∧
        lookupA ss2.Servers (resolvedHost val) =
          lookupA ss.Servers (resolvedHost val)) ∧
      ∀ srv, parseServer service val = Except.ok (some srv) →
        lookupA ss2.Servers (resolvedHost val) = some srv ∧
        (srv.ServerConnections < 1 → backendContrib service val = 1) := by
  obtain ⟨-, -, -, -, -, -, -, -, g9, g10, g11⟩ := processServers_ok hrun
  refine ⟨⟨g9, g10⟩, ?_⟩
  intro val hval
  constructor
  · intro habs
    have hnone : parseServer service val = Except.ok none :=
      parseServer_none.mpr habs
    refine ⟨by simp [backendContrib, hnone], ?_⟩
    rw [g11]
    exact lookupA_emittedServers_skipped hnd hval hnone _
  · intro srv hok
    refine ⟨?_, ?_⟩
    · rw [g11]
      exact lookupA_emittedServers_found hnd hval hok _
    · intro hc
      simp [backendContrib, hok, hc]

/-- Claim C6 witness: one missing backend and one connected-with-0 backend,
each contributing exactly 1 at both levels. -/
theorem c6_witness :
    ([bMissing, bDown].map resolvedHost).Nodup ∧
    processServers svcW [bMissing, bDown] ssW0 0 = Except.ok (ssW2, 2) ∧
    ssW2.NotAvailable = ssW0.NotAvailable + contribSum svcW [bMissing, bDown] ∧
    contribSum svcW [bMissing, bDown] = 2 ∧
    backendContrib svcW bMissing = 1 ∧
    lookupA ssW2.Servers (resolvedHost bMissing) = none ∧
    backendContrib svcW bDown = 1 ∧
    lookupA ssW2.Servers (resolvedHost bDown) = some eDown := by
  have h := c6_backend_contribution svcW [bMissing, bDown] ssW0 0 ssW2 2
    (by decide) rfl
  refine ⟨by decide, rfl, h.1.1, rfl, ?_, ?_, ?_, ?_⟩
  · exact ((h.2 bMissing (by decide)).1 rfl).1
  · have h2 := ((h.2 bMissing (by decide)).1 rfl).2
    rw [h2]
    rfl
  · exact ((h.2 bDown (by decide)).2 eDown rfl).2 (by decide)
  · exact ((h.2 bDown (by decide)).2 eDown rfl).1

/-- Claim C7: when every declared service is present in the payload, the
snapshot's top-level `expectedAvailable` is the sum of declared backend
counts across the topology, and if moreover every declared backend is found
with at least one connection, the top-level `notAvailable` is 0. -/
theorem c7_full_topology (stats : Jobj) (config : List (String × Config))
    (st : TwemproxyStats)
    (hok : parseStats (some stats) config = ParseOutcome.parsed st)
    (hpresent : ∀ p ∈ config, jLookup stats p.1 ≠ none) :
    st.ExpectedAvailable = declaredSum config ∧
    ((∀ p ∈ config, ∀ service,
        jLookup stats p.1 = some (JsonValue.obj service) →
        ∀ val ∈ p.2.Servers, ∃ srv,
          parseServer service val = Except.ok (some srv) ∧
          1 ≤ srv.ServerConnections) →
      st.NotAvailable = 0) := by
  obtain ⟨t, ht, hps⟩ := parseStats_ok_elim hok
  obtain ⟨-, -, -, -, g5, g6, -, g8⟩ := processServices_ok hps
  have g5b : st.ExpectedAvailable = 0 + expectedTotal stats config := g5
  have g6b : st.NotAvailable = 0 + contribTotal stats config := g6
  constructor
  · rw [expectedTotal_eq_declared hpresent] at g5b
    omega
  · intro hcon
    have hz : contribTotal stats config = 0 := by
      apply contribTotal_eq_zero
      intro p hp
      rcases g8 p hp with habs | ⟨sv, hb⟩
      · exact absurd habs (hpresent p hp)
      · obtain ⟨-, -, -, s, service, hs, hobj, -, -⟩ := builtService_fields hb
        have hsobj : s = JsonValue.obj service := assertObj_ok hobj
        subst hsobj
        have hcz : serviceContrib stats p.1 p.2 =
            contribSum service p.2.Servers := by
          simp [serviceContrib, hs, assertObj]
        rw [hcz]
        apply contribSum_eq_zero
        intro val hval
        obtain ⟨srv, hps2, hge⟩ := hcon p hp service hs val hval
        simp [backendContrib, hps2, not_lt.mpr hge]
    omega

/-- Claim C7 witness: both `alpha` backends present with ≥ 1 connection. -/
theorem c7_witness :
    parseStats (some pAlias) cfgAlpha = ParseOutcome.parsed stFull ∧
    stFull.ExpectedAvailable = declaredSum cfgAlpha ∧
    stFull.NotAvailable = 0 := by
  have hpresent : ∀ p ∈ cfgAlpha, jLookup pAlias p.1 ≠ none := by
    intro p hp
    fin_cases hp
    exact fun h2 => Option.noConfusion h2
  have hcon : ∀ p ∈ cfgAlpha, ∀ service,
      jLookup pAlias p.1 = some (JsonValue.obj service) →
      ∀ val ∈ p.2.Servers, ∃ srv,
        parseServer service val = Except.ok (some srv) ∧
        1 ≤ srv.ServerConnections := by
    intro p hp service hsvc
    fin_cases hp
    have h3 : some (JsonValue.obj svcFullDoc) =
        some (JsonValue.obj service) := hsvc
    injection h3 with h4
    injection h4 with h5
    subst h5
    intro val hval
    fin_cases hval
    · exact ⟨eAddr, rfl, by decide⟩
    · exact ⟨eCache2, rfl, by decide⟩
  have h := c7_full_topology pAlias cfgAlpha stFull rfl hpresent
  exact ⟨rfl, h.1, h.2 hcon⟩

/-- Claim C8: per-service `notAvailable` and `expectedAvailable` summed over
the `Services` map equal the top-level counters. -/
theorem c8_additivity (stats : Jobj) (config : List (String × Config))
    (st : TwemproxyStats)
    (hnd : (config.map Prod.fst).Nodup)
    (hok : parseStats (some stats) config = ParseOutcome.parsed st) :
    naSum st.Services = st.NotAvailable ∧
    eaSum st.Services = st.ExpectedAvailable := by
  obtain ⟨t, ht, hps⟩ := parseStats_ok_elim hok
  obtain ⟨-, -, -, -, g5, g6, g7, g8⟩ := processServices_ok hps
  have g5b : st.ExpectedAvailable = 0 + expectedTotal stats config := g5
  have g6b : st.NotAvailable = 0 + contribTotal stats config := g6
  have g7b : st.Services = svFold stats config [] := g7
  have hfresh : ∀ p ∈ config,
      lookupA ([] : List (String × ServiceStats)) p.1 = none := fun p _ => rfl
  constructor
  · rw [g7b, naSum_svFold config [] hnd hfresh g8]
    have hn : naSum [] = 0 := rfl
    omega
  · rw [g7b, eaSum_svFold config [] hnd hfresh g8]
    have he : eaSum [] = 0 := rfl
    omega

/-- Claim C8 witness on a concrete topology and payload. -/
theorem c8_witness :
    (cfgAlpha.map Prod.fst).Nodup ∧
    parseStats (some pMixed) cfgAlpha = ParseOutcome.parsed stMixed ∧
    naSum stMixed.Services = stMixed.NotAvailable ∧
    eaSum stMixed.Services = stMixed.ExpectedAvailable := by
  have h := c8_additivity pMixed cfgAlpha stMixed (by decide) rfl
  exact ⟨by decide, rfl, h.1, h.2⟩

/-- Claim C9: `notAvailable` never exceeds `expectedAvailable`, at the top
level and in every emitted `ServiceStats`, whose `expectedAvailable` is the
declared backend count of its service. -/
theorem c9_bounds (stats : Jobj) (config : List (String × Config))
    (st : TwemproxyStats)
    (hok : parseStats (some stats) config = ParseOutcome.parsed st) :
    st.NotAvailable ≤ st.ExpectedAvailable ∧
    ∀ p ∈ st.Services, p.2.NotAvailable ≤ p.2.ExpectedAvailable ∧
      ∃ c, (p.1, c) ∈ config ∧ p.2.ExpectedAvailable = c.Servers.length := by
  obtain ⟨t, ht, hps⟩ := parseStats_ok_elim hok
  obtain ⟨-, -, -, -, g5, g6, g7, -⟩ := processServices_ok hps
  have g5b : st.ExpectedAvailable = 0 + expectedTotal stats config := g5
  have g6b : st.NotAvailable = 0 + contribTotal stats config := g6
  constructor
  · have hb := contribTotal_le_expectedTotal stats config
    omega
  · intro p hp
    have g7b : st.Services = svFold stats config [] := g7
    rw [g7b] at hp
    rcases mem_svFold hp with h2 | ⟨c, hc, hb⟩
    · cases h2
    · obtain ⟨-, hea, hna, s, service, hs, -, -, -⟩ := builtService_fields hb
      have hse : serviceExpected stats p.1 c = c.Servers.length := by
        simp [serviceExpected, hs]
      refine ⟨?_, c, hc, hea⟩
      rw [hna, hea, ← hse]
      exact serviceContrib_le _ _ _

/-- Claim C9 witness on a payload with one missing and one disconnected
backend. -/
theorem c9_witness :
    parseStats (some pMixed) cfgAlpha = ParseOutcome.parsed stMixed ∧
    stMixed.NotAvailable ≤ stMixed.ExpectedAvailable ∧
    svMixed.NotAvailable ≤ svMixed.ExpectedAvailable ∧
    svMixed.ExpectedAvailable = cAlpha.Servers.length := by
  have h := c9_bounds pMixed cfgAlpha stMixed rfl
  obtain ⟨hle, c, hc, hea⟩ := h.2 ("alpha", svMixed) (by decide)
  have hcc : c = cAlpha := by
    simpa using List.mem_singleton.mp hc
  subst hcc
  exact ⟨rfl, h.1, hle, hea⟩

/-- Claim C10: every key of an emitted `Servers` map is the resolved host
key of some backend declared for that service in the topology and the
stored record's `Host` equals the key; and a raw service sub-document entry
whose key matches no declared backend (and none of the six scalar fields)
changes nothing: processing the service with or without it is identical. -/
theorem c10_server_keys (stats : Jobj) (config : List (String × Config))
    (st : TwemproxyStats)
    (hok : parseStats (some stats) config = ParseOutcome.parsed st) :
    (∀ p ∈ st.Services, ∃ c, (p.1, c) ∈ config ∧
      ∀ q ∈ p.2.Servers, (∃ val ∈ c.Servers, q.1 = resolvedHost val) ∧
        q.2.Host = q.1) ∧
    (∀ (stats0 : Jobj) (key : String) (c : Config) (k0 : String)
        (v0 : JsonValue) (service : Jobj) (twemp : TwemproxyStats),
      k0 ∉ svcFieldNames → (∀ val ∈ c.Servers, k0 ≠ resolvedHost val) →
      processService ((key, JsonValue.obj ((k0, v0) :: service)) :: stats0)
          key c twemp =
        processService ((key, JsonValue.obj service) :: stats0) key c twemp) := by
  constructor
  · intro p hp
    obtain ⟨t, ht, hps⟩ := parseStats_ok_elim hok
    obtain ⟨-, -, -, -, -, -, g7, -⟩ := processServices_ok hps
    have g7b : st.Services = svFold stats config [] := g7
    rw [g7b] at hp
    rcases mem_svFold hp with h2 | ⟨c, hc, hb⟩
    · cases h2
    · obtain ⟨-, -, -, s, service, hs, hobj, hsrv, -⟩ := builtService_fields hb
      refine ⟨c, hc, ?_⟩
      intro q hq
      rw [hsrv] at hq
      rcases mem_emittedServers hq with h3 | ⟨val, hv, hps2, hkey⟩
      · cases h3
      · obtain ⟨hhost, -, -⟩ := parseServer_ok_fields hps2
        refine ⟨⟨val, hv, hkey⟩, ?_⟩
        rw [hhost, hkey]
  · intro stats0 key c k0 v0 service twemp hf hs
    exact processService_extra_raw_key hf hs twemp

/-- Claim C10 witness: the emitted `cache2` entry traces back to the
declared aliased backend, and a rogue raw key changes nothing. -/
theorem c10_witness :
    parseStats (some pAlias) cfgAlpha = ParseOutcome.parsed stFull ∧
    (∃ val ∈ cAlpha.Servers, ("cache2" : String) = resolvedHost val) ∧
    eCache2.Host = "cache2" ∧
    processService
        [("alpha", JsonValue.obj (("rogue", JsonValue.num 7) :: svcFullDoc))]
        "alpha" cAlpha {} =
      processService [("alpha", JsonValue.obj svcFullDoc)] "alpha" cAlpha {} := by
  have h := c10_server_keys pAlias cfgAlpha stFull rfl
  obtain ⟨c, hc, hq⟩ := h.1 ("alpha", svAlpha) (by decide)
  have hcc : c = cAlpha := by
    simpa using List.mem_singleton.mp hc
  subst hcc
  have hq2 := hq ("cache2", eCache2) (by decide)
  refine ⟨rfl, hq2.1, hq2.2, ?_⟩
  exact h.2 [] "alpha" cAlpha "rogue" (JsonValue.num 7) svcFullDoc {}
    (by decide) (by decide)

end Twemproxy
